import Mathlib

/-!
Tetris engine of `my_tetris.js`: shallow embedding and verified properties.

The game state of `src/my_tetris.js` (the globals `grid`, `activePiece`, `nextPiece`,
`isGameOver`, `dropInterval`, `lastDropTime`, `currentScore`, `linesCleared`, `level`) is one
record, and every function of the script that reads or writes it becomes a function on that
record. Conventions of the embedding:

* JavaScript numbers are IEEE 754 doubles. Piece coordinates are exact integers (`Int`): a key
  event or a Tick changes them by one. The counters `currentScore`, `linesCleared` and `level`
  are naturals, and every sum and product `update` forms with them is rounded to the nearest
  double by `roundNat` (round to nearest, ties to even), so a counter beyond `2 ^ 53` moves as
  the double does. The drop interval and the timestamps are rationals; `dropInterval *= 0.9` is
  the product with the double `DECAY` that the literal `0.9` denotes, rounded by `roundDouble`.
  The difference `time - lastDropTime` of the drop test is taken exactly.
* A `TypeError` (reading or writing an element of `undefined`) is explicit: pure functions return
  `Option`, and functions that mutate globals return the state at exit together with a flag that
  tells whether they threw (writes made before the throw stay visible).
* `getRandomTetromino` is an input: the type it draws is an argument of `update`.
* Rendering (`drawCell`, `renderBoard`, `renderNextPiece`, `draw`) and the DOM text fields do not
  influence the game state and are left out.
-/

namespace Tetris

/-! ## Constants and the piece catalog -/

def GRID_WIDTH : Nat := 10

def GRID_HEIGHT : Nat := 20

/-- The seven keys of `SHAPES` and `COLORS`. -/
inductive PieceType where
  | I | O | T | S | Z | J | L
  deriving DecidableEq, Repr

/-- The seven values of `COLORS` (all of them non-empty strings, hence truthy). -/
inductive Color where
  | cyan | yellow | purple | green | red | blue | orange
  deriving DecidableEq, Repr

def COLORS : PieceType → Color
  | .I => .cyan
  | .O => .yellow
  | .T => .purple
  | .S => .green
  | .Z => .red
  | .J => .blue
  | .L => .orange

/-- An entry of a shape matrix: `some n` is the number `n`, `none` is `undefined` (what
`row[index]` yields past the end of a row). -/
abbrev ShapeCell := Option Nat

abbrev Shape := List (List ShapeCell)

def SHAPES : PieceType → Shape
  | .I => [[some 1, some 1, some 1, some 1]]
  | .O => [[some 1, some 1], [some 1, some 1]]
  | .T => [[some 0, some 1, some 0], [some 1, some 1, some 1]]
  | .S => [[some 0, some 1, some 1], [some 1, some 1, some 0]]
  | .Z => [[some 1, some 1, some 0], [some 0, some 1, some 1]]
  | .J => [[some 1, some 0, some 0], [some 1, some 1, some 1]]
  | .L => [[some 0, some 0, some 1], [some 1, some 1, some 1]]

/-- The test `cell === 0` of `isValidMove`. -/
def ShapeCell.isZero (cell : ShapeCell) : Bool := cell == some 0

/-- The test `if (cell)` of `placePiece`: a non-zero number; `undefined` and `0` are falsy. -/
def ShapeCell.truthy : ShapeCell → Bool
  | some n => n != 0
  | none => false

/-! ## Grid and pieces -/

/-- An element slot of a grid row: `null`, a color written by `placePiece`, or a hole (an index
below the array length that was never assigned, left behind when a write lands past the end). -/
inductive Cell where
  | null
  | hole
  | color (c : Color)
  deriving DecidableEq, Repr

abbrev Row := List Cell

abbrev Grid := List Row

structure Piece where
  type : PieceType
  shape : Shape
  color : Color
  x : Int
  y : Int
  deriving DecidableEq, Repr

/-- The row `Array(GRID_WIDTH).fill(null)`. -/
def emptyRow : Row := List.replicate GRID_WIDTH Cell.null

/-- The grid `Array.from({ length: GRID_HEIGHT }, () => Array(GRID_WIDTH).fill(null))`. -/
def emptyGrid : Grid := List.replicate GRID_HEIGHT emptyRow

/-- A grid of `GRID_HEIGHT` rows, each of `GRID_WIDTH` element slots. -/
def Grid.WellSized (g : Grid) : Prop :=
  g.length = GRID_HEIGHT ∧ ∀ row ∈ g, row.length = GRID_WIDTH

instance (g : Grid) : Decidable g.WellSized := by
  unfold Grid.WellSized; infer_instance

/-- The value of `!row[x]` for an index `x` that is a non-negative integer: true for `null`, for a
hole and for an index past the end (both read as `undefined`), false for a color. -/
def Row.slotFree (row : Row) (x : Nat) : Bool :=
  match row.get? x with
  | some (Cell.color _) => false
  | _ => true

/-- The value of `!grid[y][x]`, or `none` when `grid[y]` is `undefined` (negative `y`, or `y` past
the last row) and the element read throws a `TypeError`. Only called with `0 ≤ x`. -/
def Grid.free (g : Grid) (y x : Int) : Option Bool :=
  if y < 0 then none
  else
    match g.get? y.toNat with
    | none => none
    | some row => some (row.slotFree x.toNat)

/-- The method `Array.prototype.every` with the element index passed to the callback, for a
callback that may throw: elements are visited in order, the first `false` ends the visit with
`false`, and a throw (`none`) propagates. -/
def everyIdx {α : Type} (f : α → Nat → Option Bool) : List α → Nat → Option Bool
  | [], _ => some true
  | a :: rest, i =>
    match f a i with
    | none => none
    | some false => some false
    | some true => everyIdx f rest (i + 1)

/-- The callback of the inner `row.every` in `isValidMove`. -/
def cellValid (g : Grid) (p : Piece) (dy : Nat) (cell : ShapeCell) (dx : Nat) : Option Bool :=
  let x : Int := p.x + dx
  let y : Int := p.y + dy
  if cell.isZero then some true
  else if 0 ≤ x ∧ x < GRID_WIDTH ∧ y < GRID_HEIGHT then g.free y x
  else some false

def isValidMove (g : Grid) (p : Piece) : Option Bool :=
  everyIdx (fun row dy => everyIdx (cellValid g p dy) row 0) p.shape 0

/-! ## Piece operations -/

def createTetromino (type : PieceType) : Piece :=
  { type := type
    shape := SHAPES type
    color := COLORS type
    x := (GRID_WIDTH / 2 : Nat) - 1
    y := 0 }

/-- The expression `piece.shape[0].map((_, index) => piece.shape.map(row => row[index]).reverse())`;
`none` when `piece.shape[0]` is `undefined` (no row), where `.map` throws a `TypeError`. -/
def rotateShape (shape : Shape) : Option Shape :=
  match shape with
  | [] => none
  | first :: _ =>
    some ((List.range first.length).map fun index =>
      (shape.map fun row => (row.get? index).getD none).reverse)

def rotateTetromino (piece : Piece) : Option Piece :=
  (rotateShape piece.shape).map fun newShape => { piece with shape := newShape }

def moveTetromino (g : Grid) (piece : Piece) (offsetX offsetY : Int) : Option Piece :=
  let newPiece : Piece := { piece with x := piece.x + offsetX, y := piece.y + offsetY }
  match isValidMove g newPiece with
  | none => none
  | some true => some newPiece
  | some false => some piece

/-- How a run of the `while` loop of `hardDrop` ends: the loop left normally with the piece at
rest, `isValidMove` threw (the piece keeps the increments made so far, `piece.y++` mutates it in
place), or the given number of iterations did not suffice. -/
inductive Drop where
  | landed (piece : Piece)
  | threw (piece : Piece)
  | running (piece : Piece)
  deriving DecidableEq, Repr

/-- The loop `while (isValidMove({ ...piece, y: piece.y + 1 })) { piece.y++; }` run for at most
`fuel` iterations. -/
def hardDrop (g : Grid) : Nat → Piece → Drop
  | 0, piece => .running piece
  | fuel + 1, piece =>
    match isValidMove g { piece with y := piece.y + 1 } with
    | none => .threw piece
    | some false => .landed piece
    | some true => hardDrop g fuel { piece with y := piece.y + 1 }

/-! ## Locking and line clearing -/

/-- The assignment `row[x] = color` on an array: an index inside the array overwrites the slot, an
index past the end grows the array and leaves holes in between, and a negative index creates a
property that is not an element (no function of the script reads it), so the elements stay. -/
def Row.write (row : Row) (x : Int) (c : Color) : Row :=
  if x < 0 then row
  else if x.toNat < row.length then row.set x.toNat (Cell.color c)
  else row ++ List.replicate (x.toNat - row.length) Cell.hole ++ [Cell.color c]

/-- The assignment `grid[y][x] = color`; `none` when `grid[y]` is `undefined` (`TypeError`). -/
def Grid.write (g : Grid) (y x : Int) (c : Color) : Option Grid :=
  if y < 0 then none
  else
    match g.get? y.toNat with
    | none => none
    | some row => some (g.set y.toNat (row.write x c))

/-- The inner `row.forEach` of `placePiece` from column offset `dx` on: the grid at exit and
whether the loop completed (`false`: a write threw, and the writes before it remain). -/
def placeRow (c : Color) (px py : Int) (dy : Nat) : List ShapeCell → Nat → Grid → Grid × Bool
  | [], _, g => (g, true)
  | cell :: rest, dx, g =>
    if cell.truthy then
      match g.write (py + dy) (px + dx) c with
      | none => (g, false)
      | some g1 => placeRow c px py dy rest (dx + 1) g1
    else placeRow c px py dy rest (dx + 1) g

/-- The outer `piece.shape.forEach` of `placePiece` from row offset `dy` on. -/
def placeRows (c : Color) (px py : Int) : List (List ShapeCell) → Nat → Grid → Grid × Bool
  | [], _, g => (g, true)
  | row :: rest, dy, g =>
    match placeRow c px py dy row 0 g with
    | (g1, false) => (g1, false)
    | (g1, true) => placeRows c px py rest (dy + 1) g1

/-- The grid at exit of `placePiece(piece)` and whether it returned normally. -/
def placePiece (g : Grid) (piece : Piece) : Grid × Bool :=
  placeRows piece.color piece.x piece.y piece.shape 0 g

/-- The test `row.every(cell => cell !== null)`; `every` skips holes, and a hole, read as
`undefined`, would pass `!== null` as well. -/
def rowFull (row : Row) : Bool := row.all fun cell => cell != Cell.null

/-- The `grid.filter` of `clearLines` with its counter: the rows kept and `linesRemoved`. -/
def filterRows : Grid → Grid × Nat
  | [] => ([], 0)
  | row :: rest =>
    let (kept, linesRemoved) := filterRows rest
    if rowFull row then (kept, linesRemoved + 1) else (row :: kept, linesRemoved)

/-- The loop `while (grid.length < GRID_HEIGHT) { grid.unshift(Array(GRID_WIDTH).fill(null)); }`. -/
def unshiftRows (g : Grid) : Grid :=
  if g.length < GRID_HEIGHT then unshiftRows (emptyRow :: g) else g
termination_by GRID_HEIGHT - g.length
decreasing_by simp only [List.length_cons]; omega

/-- The grid after `clearLines()` and the value it returns. -/
def clearLines (g : Grid) : Grid × Nat :=
  let (kept, linesRemoved) := filterRows g
  (unshiftRows kept, linesRemoved)

/-! ## The session: globals, `update` and the key handler -/

/-- The mutable globals of the script (`heldPiece` is never read or written after its
initialisation and is left out). -/
structure State where
  grid : Grid
  activePiece : Piece
  nextPiece : Piece
  isGameOver : Bool
  dropInterval : ℚ
  lastDropTime : ℚ
  currentScore : Nat
  linesCleared : Nat
  level : Nat
  deriving DecidableEq

/-- The globals when a call ends, and whether the call ended by a `TypeError`. -/
structure Exit where
  state : State
  threw : Bool
  deriving DecidableEq

/-- The globals after the top-level initialisers, for the two types drawn by
`getRandomTetromino`. -/
def initialState (activeType nextType : PieceType) : State :=
  { grid := emptyGrid
    activePiece := createTetromino activeType
    nextPiece := createTetromino nextType
    isGameOver := false
    dropInterval := 1000
    lastDropTime := 0
    currentScore := 0
    linesCleared := 0
    level := 0 }

/-! ### Arithmetic of doubles -/

/-- The double nearest to the integer `n` (round to nearest, ties to the even significand): an
integer below `2 ^ 53` is a double; above, a double keeps the 53 leading bits. The exponent range
is not bounded (no integer of this script comes near `2 ^ 1024`). -/
def roundNat (n : Nat) : Nat :=
  if n < 2 ^ 53 then n
  else
    let unit := 2 ^ (Nat.log2 n - 52)
    let q := n / unit
    let r := n % unit
    if 2 * r < unit then q * unit
    else if unit < 2 * r then (q + 1) * unit
    else if q % 2 = 0 then q * unit
    else (q + 1) * unit

/-- The integer nearest to `x`, a tie going to the even one. -/
def roundHalfEven (x : ℚ) : ℤ :=
  if x - ⌊x⌋ < 1 / 2 then ⌊x⌋
  else if 1 / 2 < x - ⌊x⌋ then ⌊x⌋ + 1
  else if ⌊x⌋ % 2 = 0 then ⌊x⌋
  else ⌊x⌋ + 1

/-- The exponent of the spacing of the doubles around `q`: 52 below the binary exponent of `q`,
which is at least `-1022` (subnormal numbers). -/
def ulpExponent (q : ℚ) : ℤ := max (Int.log 2 |q|) (-1022) - 52

/-- The double nearest to the rational `q` (round to nearest, ties to even), for `q` within the
range of the finite doubles. -/
def roundDouble (q : ℚ) : ℚ :=
  roundHalfEven (q / 2 ^ ulpExponent q) * 2 ^ ulpExponent q

/-- The number the literal `0.9` denotes. -/
def DECAY : ℚ := roundDouble (9 / 10)

/-- The part of `update` from `const linesRemoved = clearLines()` to `lastDropTime = time`: the
statements `currentScore += linesRemoved * 100`, `linesCleared += linesRemoved`,
`if (linesCleared >= (level + 1) * 10) { level++; dropInterval *= 0.9; }`, each operation
rounded to the double it yields. -/
def clearAndScore (s : State) (time : ℚ) : State :=
  let (g, linesRemoved) := clearLines s.grid
  let currentScore := roundNat (s.currentScore + roundNat (linesRemoved * 100))
  let linesCleared := roundNat (s.linesCleared + linesRemoved)
  let levelUp : Bool := decide (linesCleared ≥ roundNat (roundNat (s.level + 1) * 10))
  { s with
    grid := g
    currentScore := currentScore
    linesCleared := linesCleared
    level := if levelUp then roundNat (s.level + 1) else s.level
    dropInterval := if levelUp then roundDouble (s.dropInterval * DECAY) else s.dropInterval
    lastDropTime := time }

/-- The function `update(time)`; `randomType` is the type drawn by `getRandomTetromino()` on the
lock branch. The test `newPiece === activePiece` compares object identity: `moveTetromino` returns
its argument itself on rejection and a fresh copy whose `y` is larger by one on acceptance, so for
this call identity and equality of the fields coincide. -/
def update (s : State) (time : ℚ) (randomType : PieceType) : Exit :=
  if s.isGameOver then ⟨s, false⟩
  else if time - s.lastDropTime > s.dropInterval then
    match moveTetromino s.grid s.activePiece 0 1 with
    | none => ⟨s, true⟩
    | some newPiece =>
      if newPiece = s.activePiece then
        match placePiece s.grid s.activePiece with
        | (g1, false) => ⟨{ s with grid := g1 }, true⟩
        | (g1, true) =>
          let s1 : State :=
            { s with grid := g1, activePiece := s.nextPiece,
                     nextPiece := createTetromino randomType }
          match isValidMove s1.grid s1.activePiece with
          | none => ⟨s1, true⟩
          | some valid =>
            let s2 : State := { s1 with isGameOver := if !valid then true else s1.isGameOver }
            ⟨clearAndScore s2 time, false⟩
      else ⟨{ s with activePiece := newPiece, lastDropTime := time }, false⟩
  else ⟨s, false⟩

/-- The keys the `keydown` listener distinguishes, by the case they select: `rotate` is
`ArrowUp`, `x`, `Control` or `z`; `down`, `left`, `right` are the arrow keys; `space` is the hard
drop; `hold` is `Shift` or `c`; `other` is every remaining key. -/
inductive Key where
  | rotate | down | left | right | space | hold | other
  deriving DecidableEq, Repr

/-- Replace the active piece by the result of a piece operation; a throw leaves the globals as
they are. -/
def setActive (s : State) : Option Piece → Exit
  | some piece => ⟨{ s with activePiece := piece }, false⟩
  | none => ⟨s, true⟩

/-- The `keydown` listener, the hard-drop loop bounded by `fuel`; `none` when the loop needs more
iterations than that. -/
def keydown (fuel : Nat) (s : State) (key : Key) : Option Exit :=
  if s.isGameOver then some ⟨s, false⟩
  else
    match key with
    | .rotate => some (setActive s (rotateTetromino s.activePiece))
    | .down => some (setActive s (moveTetromino s.grid s.activePiece 0 1))
    | .left => some (setActive s (moveTetromino s.grid s.activePiece (-1) 0))
    | .right => some (setActive s (moveTetromino s.grid s.activePiece 1 0))
    | .space =>
      match hardDrop s.grid fuel s.activePiece with
      | .landed piece => some ⟨{ s with activePiece := piece }, false⟩
      | .threw piece => some ⟨{ s with activePiece := piece }, true⟩
      | .running _ => none
    | .hold => some ⟨s, false⟩
    | .other => some ⟨s, false⟩

/-- The states the script can be in: the initial one, and those a reachable state leads to by a
call of `update` that returns or by a key event. (`gameLoop` asks for the next frame only after
`update` has returned, so a call of `update` that throws is the last one.) -/
inductive Reachable : State → Prop where
  | init (activeType nextType : PieceType) : Reachable (initialState activeType nextType)
  | tick {s : State} (time : ℚ) (randomType : PieceType) :
      Reachable s → (update s time randomType).threw = false →
      Reachable (update s time randomType).state
  | key {s : State} (fuel : Nat) (k : Key) (e : Exit) :
      Reachable s → keydown fuel s k = some e → Reachable e.state

/-! ## Vocabulary of the properties -/

/-- The slot at row `y`, column `x` of the grid, when both exist. -/
def Grid.cell (g : Grid) (y x : Nat) : Option Cell :=
  (g.get? y).bind fun row => row.get? x

/-- The slot at row `y`, column `x` holds no color. -/
def Grid.emptyAt (g : Grid) (y x : Nat) : Bool :=
  match g.cell y x with
  | some (Cell.color _) => false
  | _ => true

/-- The condition on the occupied cells of a piece as the specification words it: every entry
`(dx, dy)` of the shape other than the number 0 lies in a column of `[0, GRID_WIDTH)` and in a row
below `GRID_HEIGHT`, and when that row is not negative the slot of the grid there holds no
color. -/
def FitsAboveTop (g : Grid) (p : Piece) : Prop :=
  ∀ dy : Fin p.shape.length, ∀ dx : Fin (p.shape.get dy).length,
    (p.shape.get dy).get dx ≠ some 0 →
      0 ≤ p.x + dx ∧ p.x + dx < GRID_WIDTH ∧ p.y + dy < GRID_HEIGHT ∧
        (0 ≤ p.y + dy → g.emptyAt (p.y + dy).toNat (p.x + dx).toNat = true)

instance (g : Grid) (p : Piece) : Decidable (FitsAboveTop g p) := by
  unfold FitsAboveTop; infer_instance

/-- The entry in row `i`, column `j` of a shape matrix, when it exists. -/
def Shape.entry (s : Shape) (i j : Nat) : Option ShapeCell :=
  (s.get? i).bind fun row => row.get? j

/-- A matrix of `R` rows, each of `C` entries. -/
def Shape.HasDims (s : Shape) (R C : Nat) : Prop :=
  s.length = R ∧ ∀ row ∈ s, row.length = C

instance (s : Shape) (R C : Nat) : Decidable (s.HasDims R C) := by
  unfold Shape.HasDims; infer_instance

/-- Four applications of `rotateTetromino`, each on the piece the one before returned. -/
def rotateFourTimes (p : Piece) : Option Piece :=
  (((rotateTetromino p).bind rotateTetromino).bind rotateTetromino).bind rotateTetromino

/-- The state of the session right after `placePiece` and the hand-over of the pieces on the lock
branch of `update`, with `grid` the grid after the lock and `valid` the value of
`isValidMove(activePiece)` for the promoted piece. -/
def afterLock (s : State) (grid : Grid) (randomType : PieceType) (valid : Bool) : State :=
  { s with
    grid := grid
    activePiece := s.nextPiece
    nextPiece := createTetromino randomType
    isGameOver := if !valid then true else s.isGameOver }

/-- A row that holds a color in every slot. -/
def filledRow (c : Color) : Row := List.replicate GRID_WIDTH (Cell.color c)

/-- A row that holds a color in its first slot only. -/
def startedRow (c : Color) : Row := Cell.color c :: List.replicate (GRID_WIDTH - 1) Cell.null

/-- A grid of `GRID_HEIGHT` rows in which rows 3 and 7 are full and every other row holds one
color, a different one in neighbouring rows so that the order of the rows is visible. -/
def sampleGrid : Grid :=
  [startedRow .cyan, startedRow .yellow, startedRow .purple, filledRow .red,
   startedRow .green, startedRow .blue, startedRow .orange, filledRow .red,
   startedRow .cyan, startedRow .yellow, startedRow .purple, startedRow .green,
   startedRow .blue, startedRow .orange, startedRow .cyan, startedRow .yellow,
   startedRow .purple, startedRow .green, startedRow .blue, startedRow .orange]

/-- A bottom row with its four leftmost slots empty. -/
def gapRow : Row := List.replicate 4 Cell.null ++ List.replicate 6 (Cell.color .red)

/-- A row with a color in column 4 only. -/
def towerRow : Row :=
  List.replicate 4 Cell.null ++ [Cell.color .blue] ++ List.replicate 5 Cell.null

/-- Nineteen empty rows above `gapRow`. -/
def gapGrid : Grid := List.replicate 19 emptyRow ++ [gapRow]

/-- A tower in column 4 that reaches row 0, above `gapRow`. -/
def towerGrid : Grid := List.replicate 19 towerRow ++ [gapRow]

/-- The I piece lying in the gap of the bottom row. -/
def lyingI : Piece := { createTetromino .I with x := 0, y := 19 }

/-- A running session in which the next Tick locks `lyingI` and completes the bottom row. -/
def gapState (grid : Grid) (score lines level : Nat) : State :=
  { grid := grid
    activePiece := lyingI
    nextPiece := createTetromino .O
    isGameOver := false
    dropInterval := 1000
    lastDropTime := 0
    currentScore := score
    linesCleared := lines
    level := level }

/-- A running session at level 3 with 39 cleared lines, a score of `2 ^ 55` and the drop interval
729 (the value after three level-ups: `1000 * 0.9` is 900, `900 * 0.9` is 810 and `810 * 0.9` is
729 in doubles), in which the next Tick locks `lyingI` and completes the bottom row. -/
def largeScoreState : State :=
  { gapState gapGrid (2 ^ 55) 39 3 with dropInterval := 729 }

/-- The I piece standing upright (the shape one rotation gives) in column `x`, at row 0. -/
def standingI (x : Int) : Piece :=
  { createTetromino .I with shape := [[some 1], [some 1], [some 1], [some 1]], x := x }

/-- The initial session for an I piece followed by an O piece, with the active piece replaced. -/
def openingWith (p : Piece) : State :=
  { initialState .I .O with activePiece := p }

/-- The I piece lying at row 0 with its first cell in the last column: what rotating
`standingI 9` gives. Its cells cover columns 9 to 12. -/
def overhangingI : Piece := { createTetromino .I with x := 9 }

/-- The shape has an occupied cell: an entry other than the number 0. -/
def Shape.Occupied (s : Shape) : Prop :=
  ∃ dy : Fin s.length, ∃ dx : Fin (s.get dy).length, (s.get dy).get dx ≠ some 0

instance (s : Shape) : Decidable s.Occupied := by
  unfold Shape.Occupied; infer_instance

/-- The piece moved down by `n` rows. -/
def Piece.lowered (p : Piece) (n : Nat) : Piece := { p with y := p.y + n }

/-- A session that has ended: the state `gapState towerGrid 0 0 0` is left in by its Tick at
time 1001 when a T is drawn. -/
def endedState : State :=
  { grid := emptyRow :: List.replicate 19 towerRow
    activePiece := createTetromino .O
    nextPiece := createTetromino .T
    isGameOver := true
    dropInterval := 1000
    lastDropTime := 1001
    currentScore := 100
    linesCleared := 1
    level := 0 }

/-- A piece whose shape has no occupied cell (a single entry, the number 0). -/
def blankPiece : Piece := { createTetromino .O with shape := [[some 0]] }

/-- The shape after `n` applications of `rotateShape`. -/
def rotateShapeN : Nat → Shape → Option Shape
  | 0, s => some s
  | n + 1, s => (rotateShapeN n s).bind rotateShape

/-- The catalog shapes together with their first, second and third rotation. -/
def catalogRotations : List Shape :=
  ([PieceType.I, .O, .T, .S, .Z, .J, .L].map fun type =>
    (List.range 4).filterMap fun n => rotateShapeN n (SHAPES type)).flatten

/-- The last row of the shape has an occupied cell. -/
def Shape.bottomOccupied (s : Shape) : Bool :=
  match s.getLast? with
  | some row => row.any fun cell => cell != some 0
  | none => false

/-- The piece has a cell on the slot at row `r`, column `c`: an entry `(dx, dy)` of its shape that
passes the test `if (cell)` of `placePiece` (a number other than 0), with `y + dy = r` and
`x + dx = c`. -/
def Covers (p : Piece) (r c : Nat) : Prop :=
  ∃ dy : Fin p.shape.length, ∃ dx : Fin (p.shape.get dy).length,
    ((p.shape.get dy).get dx).truthy = true ∧ p.y + dy = r ∧ p.x + dx = c

instance (p : Piece) (r c : Nat) : Decidable (Covers p r c) := by
  unfold Covers; infer_instance

/-- A row of a shape, its first entry at column `x0`, has a cell at column `col`. -/
def RowCovers (cells : List ShapeCell) (x0 : Int) (col : Nat) : Prop :=
  ∃ j : Fin cells.length, (cells.get j).truthy = true ∧ x0 + j = col

/-- The rows of a shape, the first of them at row `y0` with its first entry at column `x0`, have
a cell at row `r`, column `col`. -/
def RowsCover (rows : List (List ShapeCell)) (x0 y0 : Int) (r col : Nat) : Prop :=
  ∃ k : Fin rows.length, y0 + k = r ∧ RowCovers (rows.get k) x0 col

/-- Every cell of a shape row placed at row `y`, first entry at column `x0`, lies on the grid. -/
def RowFits (cells : List ShapeCell) (x0 y : Int) : Prop :=
  ∀ j : Fin cells.length, (cells.get j).truthy = true →
    0 ≤ y ∧ y < GRID_HEIGHT ∧ 0 ≤ x0 + j ∧ x0 + j < GRID_WIDTH

/-- Every cell of the shape rows placed from row `y0` on lies on the grid. -/
def RowsFit (rows : List (List ShapeCell)) (x0 y0 : Int) : Prop :=
  ∀ k : Fin rows.length, RowFits (rows.get k) x0 (y0 + k)

/-- The I piece lying on the floor of the empty grid below the spawn position: where the hard
drop leaves the I piece of the initial session. -/
def restingI : Piece := { createTetromino .I with y := 19 }

/-- The I piece standing upright with its first cell in the last row: what rotating `restingI`
gives. Its cells cover rows 19 to 22. -/
def sunkenI : Piece := { standingI 4 with y := 19 }

/-- A grid with a color in row 0, column 4, nothing in rows 1 to 18 and a full last row. -/
def floatGrid : Grid := towerRow :: List.replicate 18 emptyRow ++ [filledRow .red]

/-- Row 0 of the grid holds no color in the columns where the second row of the piece's shape
has an occupied cell. -/
def RowZeroClear (g : Grid) (p : Piece) : Prop :=
  ∀ dy : Fin p.shape.length, ∀ dx : Fin (p.shape.get dy).length,
    dy.1 = 1 → (p.shape.get dy).get dx ≠ some 0 → g.emptyAt 0 (p.x + dx).toNat = true

instance (g : Grid) (p : Piece) : Decidable (RowZeroClear g p) := by
  unfold RowZeroClear; infer_instance

/-- The number of entries of the shape for which `placePiece` writes a slot. -/
def truthyCount (s : Shape) : Nat :=
  (s.map fun row => row.countP ShapeCell.truthy).sum

/-- What holds in every reachable state: the grid has `GRID_HEIGHT` rows, none of them full; the
shapes of both pieces are rotations of catalog shapes; both anchor rows are not negative; and, as
long as `linesCleared` is below `2 ^ 53`, the level is the number of completed tens of cleared
lines. -/
structure Invariant (s : State) : Prop where
  rows : s.grid.length = GRID_HEIGHT
  noFull : ∀ row ∈ s.grid, rowFull row = false
  activeShape : s.activePiece.shape ∈ catalogRotations
  nextShape : s.nextPiece.shape ∈ catalogRotations
  activeRow : 0 ≤ s.activePiece.y
  nextRow : 0 ≤ s.nextPiece.y
  levelOf : s.linesCleared < 2 ^ 53 →
    s.level * 10 ≤ s.linesCleared ∧ s.linesCleared < (s.level + 1) * 10

/-- A grid of empty rows that is one row short of `GRID_HEIGHT`. -/
def shortGrid : Grid := List.replicate 19 emptyRow

/-- The states the script is left in once the frame loop has stopped on a `TypeError`: the exit
state of a call of `update` that throws in a reachable state, and the states key events lead to
from there (the `keydown` listener stays registered; `update` is not called again). -/
inductive Halted : State → Prop where
  | threw {s : State} (time : ℚ) (randomType : PieceType) :
      Reachable s → (update s time randomType).threw = true →
      Halted (update s time randomType).state
  | key {s : State} (fuel : Nat) (k : Key) (e : Exit) :
      Halted s → keydown fuel s k = some e → Halted e.state

/-- The part of `Invariant` that also holds once the frame loop has stopped. -/
structure Settled (s : State) : Prop where
  rows : s.grid.length = GRID_HEIGHT
  activeShape : s.activePiece.shape ∈ catalogRotations
  nextShape : s.nextPiece.shape ∈ catalogRotations
  activeRow : 0 ≤ s.activePiece.y
  nextRow : 0 ≤ s.nextPiece.y
  levelOf : s.linesCleared < 2 ^ 53 →
    s.level * 10 ≤ s.linesCleared ∧ s.linesCleared < (s.level + 1) * 10

/-- The grid in which the four bottom rows hold a color in their first `c` columns and nothing
else: what the locks of `c` upright I pieces in columns 0 to `c - 1` leave on the empty grid. -/
def stackGrid (c : Nat) : Grid :=
  List.replicate 16 emptyRow ++
    List.replicate 4 (List.replicate c (Cell.color .cyan) ++ List.replicate (10 - c) Cell.null)

/-- The upright I piece in column `c` with its four cells in the four bottom rows. -/
def landedI (c : Nat) : Piece := { standingI c with y := 16 }

/-- The keys that bring the I piece from its spawn position to `landedI c`: rotate, left or
right until column `c`, hard drop. -/
def columnKeys (c : Nat) : List Key :=
  Key.rotate :: ((if c < 4 then List.replicate (4 - c) Key.left
    else List.replicate (c - 4) Key.right) ++ [Key.space])

/-- The active piece a key event installs when the game runs and the listener returns: the
piece operation each case of `keydown` applies. -/
def keyPiece (fuel : Nat) (g : Grid) (p : Piece) : Key → Option Piece
  | .rotate => rotateTetromino p
  | .down => moveTetromino g p 0 1
  | .left => moveTetromino g p (-1) 0
  | .right => moveTetromino g p 1 0
  | .space =>
    match hardDrop g fuel p with
    | .landed q => some q
    | .threw _ => none
    | .running _ => none
  | .hold => some p
  | .other => some p

/-- The active piece after a sequence of key events, none of which throws. -/
def steer (fuel : Nat) (g : Grid) : Piece → List Key → Option Piece
  | p, [] => some p
  | p, k :: ks =>
    match keyPiece fuel g p k with
    | some q => steer fuel g q ks
    | none => none

/-- A running session whose grid is `stackGrid c` and whose active and next piece are I pieces at
the spawn position. -/
def AtColumn (c : Nat) (s : State) : Prop :=
  s.grid = stackGrid c ∧ s.activePiece = createTetromino .I ∧
    s.nextPiece = createTetromino .I ∧ s.isGameOver = false

/-! ## Rounding to doubles -/

theorem log2_eq (n k : Nat) (h1 : 2 ^ k ≤ n) (h2 : n < 2 ^ (k + 1)) : Nat.log2 n = k := by
  have h0 : n ≠ 0 := by
    have : 0 < 2 ^ k := Nat.pow_pos (by decide)
    omega
  have ha : k ≤ Nat.log2 n := (Nat.le_log2 h0).2 h1
  have hb : Nat.log2 n < k + 1 := (Nat.log2_lt h0).2 h2
  omega

theorem roundNat_of_lt (n : Nat) (h : n < 2 ^ 53) : roundNat n = n := by
  unfold roundNat
  rw [if_pos h]

theorem roundNat_of_dvd (n : Nat) (h : 2 ^ (Nat.log2 n - 52) ∣ n) : roundNat n = n := by
  unfold roundNat
  split_ifs with h53
  · rfl
  · have hpos : 0 < 2 ^ (Nat.log2 n - 52) := Nat.pow_pos (by decide)
    have hr : n % 2 ^ (Nat.log2 n - 52) = 0 := Nat.mod_eq_zero_of_dvd h
    simp only [hr, Nat.mul_zero]
    rw [if_pos hpos]
    exact Nat.div_mul_cancel h

theorem roundNat_even (n : Nat) (h : n < 2 ^ 54) (h2 : 2 ∣ n) : roundNat n = n := by
  by_cases h53 : n < 2 ^ 53
  · exact roundNat_of_lt n h53
  · apply roundNat_of_dvd
    rw [log2_eq n 53 (by omega) h]
    exact h2

theorem roundNat_four (n : Nat) (h : n < 2 ^ 55) (h4 : 4 ∣ n) : roundNat n = n := by
  by_cases h54 : n < 2 ^ 54
  · exact roundNat_even n h54 (Dvd.dvd.trans (by decide) h4)
  · apply roundNat_of_dvd
    rw [log2_eq n 54 (by omega) h]
    exact h4

theorem le_roundNat (n : Nat) (h : 2 ^ 53 ≤ n) : 2 ^ 53 ≤ roundNat n := by
  have h0 : n ≠ 0 := by
    have : 0 < 2 ^ 53 := Nat.pow_pos (by decide)
    omega
  have hlog : 53 ≤ Nat.log2 n := (Nat.le_log2 h0).2 h
  have hpow : 2 ^ Nat.log2 n ≤ n := Nat.log2_self_le h0
  have hsplit : 2 ^ Nat.log2 n = 2 ^ 52 * 2 ^ (Nat.log2 n - 52) := by
    rw [← Nat.pow_add]
    congr 1
    omega
  have hpos : 0 < 2 ^ (Nat.log2 n - 52) := Nat.pow_pos (by decide)
  have hq : 2 ^ 52 ≤ n / 2 ^ (Nat.log2 n - 52) := by
    rw [Nat.le_div_iff_mul_le hpos, ← hsplit]
    exact hpow
  have hunit : 2 ≤ 2 ^ (Nat.log2 n - 52) := by
    calc 2 = 2 ^ 1 := rfl
      _ ≤ 2 ^ (Nat.log2 n - 52) := Nat.pow_le_pow_right (by decide) (by omega)
  have hbase : 2 ^ 53 ≤ n / 2 ^ (Nat.log2 n - 52) * 2 ^ (Nat.log2 n - 52) := by
    calc 2 ^ 53 = 2 ^ 52 * 2 := by norm_num
      _ ≤ n / 2 ^ (Nat.log2 n - 52) * 2 ^ (Nat.log2 n - 52) := Nat.mul_le_mul hq hunit
  have hup : n / 2 ^ (Nat.log2 n - 52) * 2 ^ (Nat.log2 n - 52) ≤
      (n / 2 ^ (Nat.log2 n - 52) + 1) * 2 ^ (Nat.log2 n - 52) :=
    Nat.mul_le_mul_right _ (Nat.le_succ _)
  unfold roundNat
  rw [if_neg (by omega)]
  simp only
  split_ifs <;> omega

theorem lt_of_roundNat_lt (n : Nat) (h : roundNat n < 2 ^ 53) : n < 2 ^ 53 := by
  by_contra hn
  have := le_roundNat n (by omega)
  omega

theorem roundNat_large_score : roundNat (2 ^ 55 + 100) = 2 ^ 55 + 96 := by
  have h : Nat.log2 (2 ^ 55 + 100) = 55 := log2_eq _ 55 (by norm_num) (by norm_num)
  simp only [roundNat, h]
  norm_num

theorem roundHalfEven_eq (x : ℚ) (z : ℤ) (h1 : (z : ℚ) - 1 / 2 < x) (h2 : x < z + 1 / 2) :
    roundHalfEven x = z := by
  unfold roundHalfEven
  have hfl : ⌊x⌋ = z ∨ ⌊x⌋ = z - 1 := by
    have ha : z - 1 ≤ ⌊x⌋ := by
      rw [Int.le_floor]; push_cast; linarith
    have hb : ⌊x⌋ < z + 1 := by
      rw [Int.floor_lt]; push_cast; linarith
    omega
  have hfloor := Int.floor_le x
  have hlt := Int.lt_floor_add_one x
  rcases hfl with h | h
  · rw [h] at hfloor hlt ⊢
    rw [if_pos (by linarith)]
  · rw [h] at hfloor hlt ⊢
    push_cast at hfloor hlt ⊢
    rw [if_neg (by linarith), if_pos (by linarith)]
    ring

theorem ulpExponent_eq (q : ℚ) (e : ℤ) (hq : 0 < q) (h1 : (2 : ℚ) ^ e ≤ q)
    (h2 : q < (2 : ℚ) ^ (e + 1)) (he : -1022 ≤ e) : ulpExponent q = e - 52 := by
  unfold ulpExponent
  have hlog : Int.log 2 |q| = e := by
    rw [abs_of_pos hq]
    have ha : e ≤ Int.log 2 q := (Int.zpow_le_iff_le_log (by norm_num) hq).1 (by exact_mod_cast h1)
    have hb : Int.log 2 q < e + 1 :=
      (Int.lt_zpow_iff_log_lt (by norm_num) hq).1 (by exact_mod_cast h2)
    omega
  rw [hlog, max_eq_left he]

theorem roundDouble_eq (q : ℚ) (e z : ℤ) (hq : 0 < q) (h1 : (2 : ℚ) ^ e ≤ q)
    (h2 : q < (2 : ℚ) ^ (e + 1)) (he : -1022 ≤ e)
    (hz1 : ((z : ℚ) - 1 / 2) * 2 ^ (e - 52) < q) (hz2 : q < (z + 1 / 2) * 2 ^ (e - 52)) :
    roundDouble q = z * 2 ^ (e - 52) := by
  unfold roundDouble
  rw [ulpExponent_eq q e hq h1 h2 he]
  have hpos : (0 : ℚ) < 2 ^ (e - 52) := zpow_pos (by norm_num) _
  rw [roundHalfEven_eq _ z (by rw [lt_div_iff₀ hpos]; exact hz1) (by rw [div_lt_iff₀ hpos]; exact hz2)]

theorem DECAY_eq : DECAY = 8106479329266893 / 9007199254740992 := by
  unfold DECAY
  rw [roundDouble_eq (9 / 10) (-1) 8106479329266893 (by norm_num) (by norm_num) (by norm_num)
    (by norm_num) (by norm_num) (by norm_num)]
  norm_num

/-! ## Line clearing -/

theorem rowFull_iff (row : Row) : rowFull row = true ↔ ∀ cell ∈ row, cell ≠ Cell.null := by
  simp [rowFull, List.all_eq_true]

theorem filterRows_eq (g : Grid) :
    filterRows g = (g.filter (fun row => !rowFull row), g.countP rowFull) := by
  induction g with
  | nil => rfl
  | cons row rest ih =>
    cases hfull : rowFull row <;> simp [filterRows, ih, hfull]

theorem unshiftRows_eq (g : Grid) :
    unshiftRows g = List.replicate (GRID_HEIGHT - g.length) emptyRow ++ g := by
  generalize hn : GRID_HEIGHT - g.length = n
  induction n generalizing g with
  | zero =>
    rw [unshiftRows, if_neg (by omega)]
    simp
  | succ n ih =>
    rw [unshiftRows, if_pos (by omega), ih (emptyRow :: g) (by simp only [List.length_cons]; omega)]
    rw [List.replicate_succ', List.append_assoc]
    rfl

theorem clearLines_eq (g : Grid) :
    clearLines g =
      (List.replicate (GRID_HEIGHT - (g.filter (fun row => !rowFull row)).length) emptyRow
          ++ g.filter (fun row => !rowFull row),
        g.countP rowFull) := by
  simp [clearLines, filterRows_eq, unshiftRows_eq]

theorem length_filter_not_full (g : Grid) :
    (g.filter (fun row => !rowFull row)).length + g.countP rowFull = g.length := by
  rw [← List.countP_eq_length_filter, List.length_eq_countP_add_countP rowFull g]
  simp [Nat.add_comm]

theorem rowFull_eq_decide :
    rowFull = fun row => decide (∀ cell ∈ row, cell ≠ Cell.null) := by
  funext row
  rw [Bool.eq_iff_iff, rowFull_iff]
  simp

/-- C1, as stated, fails on a grid that does not have `GRID_HEIGHT` rows: on the grid made of one
full row `clearLines` returns 1, and the grid afterwards is `GRID_HEIGHT` fresh empty rows, not one
fresh row followed by the rows that were not full. -/
theorem clearLines_single_full_row :
    (clearLines [filledRow .red]).2 = 1 ∧
    (clearLines [filledRow .red]).1 = List.replicate GRID_HEIGHT emptyRow ∧
    (clearLines [filledRow .red]).1 ≠
      List.replicate (clearLines [filledRow .red]).2 emptyRow ++
        [filledRow .red].filter (fun row => !decide (∀ cell ∈ row, cell ≠ Cell.null)) := by
  rw [clearLines_eq]
  decide

/-- C1 (amended to grids of exactly `GRID_HEIGHT` rows): `clearLines` returns the number `k` of
rows in which no cell is `null`, and the grid afterwards is `k` fresh rows of `GRID_WIDTH` `null`
cells followed by the rows that have a `null` cell, in their original order and unchanged. -/
theorem clearLines_spec (g : Grid) (h : g.length = GRID_HEIGHT) :
    (clearLines g).2 = g.countP (fun row => decide (∀ cell ∈ row, cell ≠ Cell.null)) ∧
    (clearLines g).1 =
      List.replicate (clearLines g).2 (List.replicate GRID_WIDTH Cell.null) ++
        g.filter (fun row => !decide (∀ cell ∈ row, cell ≠ Cell.null)) := by
  have hlen := length_filter_not_full g
  have hk : GRID_HEIGHT - (g.filter (fun row => !rowFull row)).length = g.countP rowFull := by
    omega
  have hnot : (fun row : Row => !decide (∀ cell ∈ row, cell ≠ Cell.null)) =
      fun row => !rowFull row := by
    rw [rowFull_eq_decide]
  rw [clearLines_eq, ← rowFull_eq_decide, hnot, hk]
  exact ⟨rfl, rfl⟩

/-- On the sample grid (rows 3 and 7 full, the other 18 rows partially occupied) `clearLines`
returns 2, rows 0 and 1 of the result are empty and the other 18 rows follow in their order. -/
theorem clearLines_spec_sample :
    sampleGrid.length = GRID_HEIGHT ∧
    (clearLines sampleGrid).2 = 2 ∧
    (clearLines sampleGrid).1 =
      [emptyRow, emptyRow,
       startedRow .cyan, startedRow .yellow, startedRow .purple,
       startedRow .green, startedRow .blue, startedRow .orange,
       startedRow .cyan, startedRow .yellow, startedRow .purple, startedRow .green,
       startedRow .blue, startedRow .orange, startedRow .cyan, startedRow .yellow,
       startedRow .purple, startedRow .green, startedRow .blue, startedRow .orange] := by
  have h := clearLines_spec sampleGrid (by decide)
  refine ⟨by decide, ?_, ?_⟩
  · rw [h.1]; decide
  · rw [h.2, h.1]; decide

/-- C5: on a grid of at most `GRID_HEIGHT` rows, the grid after `clearLines` has exactly
`GRID_HEIGHT` rows, however many rows were full. -/
theorem clearLines_length (g : Grid) (h : g.length ≤ GRID_HEIGHT) :
    (clearLines g).1.length = GRID_HEIGHT := by
  have hlen := length_filter_not_full g
  rw [clearLines_eq]
  simp only [List.length_append, List.length_replicate]
  omega

/-- The row count after `clearLines` on the sample grid (two full rows) and on a grid of three
rows, all of them full. -/
theorem clearLines_length_sample :
    sampleGrid.length ≤ GRID_HEIGHT ∧ (clearLines sampleGrid).1.length = GRID_HEIGHT ∧
    (clearLines [filledRow .red, filledRow .blue, filledRow .red]).1.length = GRID_HEIGHT :=
  ⟨by decide, clearLines_length sampleGrid (by decide),
    clearLines_length [filledRow .red, filledRow .blue, filledRow .red] (by decide)⟩

/-! ## Validity of a placement -/

theorem everyIdx_eq_some_true {α : Type} (f : α → Nat → Option Bool) (l : List α) (i : Nat) :
    everyIdx f l i = some true ↔
      ∀ k (h : k < l.length), f (l.get ⟨k, h⟩) (i + k) = some true := by
  induction l generalizing i with
  | nil => simp [everyIdx]
  | cons a rest ih =>
    constructor
    · intro h k hk
      rw [everyIdx] at h
      cases k with
      | zero =>
        cases hf : f a i with
        | none => simp [hf] at h
        | some b => cases b <;> simp_all
      | succ k =>
        cases hf : f a i with
        | none => simp [hf] at h
        | some b =>
          cases b
          · simp [hf] at h
          · simp only [hf] at h
            have := (ih (i + 1)).1 h k (by simpa using hk)
            simpa [Nat.add_assoc, Nat.add_comm 1 k] using this
    · intro h
      have h0 := h 0 (by simp)
      simp only [List.get_eq_getElem, List.getElem_cons_zero, Nat.add_zero] at h0
      rw [everyIdx, h0]
      refine (ih (i + 1)).2 fun k hk => ?_
      have := h (k + 1) (by simpa using hk)
      simpa [Nat.add_assoc, Nat.add_comm 1 k] using this

theorem everyIdx_isSome {α : Type} (f : α → Nat → Option Bool) (l : List α) (i : Nat)
    (h : ∀ k (hk : k < l.length), (f (l.get ⟨k, hk⟩) (i + k)).isSome = true) :
    (everyIdx f l i).isSome = true := by
  induction l generalizing i with
  | nil => simp [everyIdx]
  | cons a rest ih =>
    have h0 := h 0 (by simp)
    simp only [List.get_eq_getElem, List.getElem_cons_zero, Nat.add_zero] at h0
    rw [everyIdx]
    cases hf : f a i with
    | none => simp [hf] at h0
    | some b =>
      cases b
      · simp
      · refine ih (i + 1) fun k hk => ?_
        have := h (k + 1) (by simpa using hk)
        simpa [Nat.add_assoc, Nat.add_comm 1 k] using this

theorem free_eq_emptyAt (g : Grid) (y x : Int) (hy0 : 0 ≤ y) (hy : y.toNat < g.length) :
    g.free y x = some (g.emptyAt y.toNat x.toNat) := by
  unfold Grid.free Grid.emptyAt Grid.cell Row.slotFree
  rw [if_neg (by omega), List.get?_eq_get hy]
  simp only [Option.some_bind]

theorem cellValid_of_nonneg (g : Grid) (p : Piece) (hg : g.length = GRID_HEIGHT) (hy : 0 ≤ p.y)
    (dy : Nat) (cell : ShapeCell) (dx : Nat) :
    cellValid g p dy cell dx =
      some (decide (cell ≠ some 0 →
        0 ≤ p.x + dx ∧ p.x + dx < GRID_WIDTH ∧ p.y + dy < GRID_HEIGHT ∧
          g.emptyAt (p.y + dy).toNat (p.x + dx).toNat = true)) := by
  unfold cellValid
  by_cases hz : cell = some 0
  · simp [ShapeCell.isZero, hz]
  · have hz2 : cell.isZero = false := by simpa [ShapeCell.isZero] using hz
    simp only [hz2, Bool.false_eq_true, if_false]
    split_ifs with hr
    · rw [free_eq_emptyAt g _ _ (by omega) (by omega)]
      simp [hz, hr]
    · simp only [Option.some.injEq]
      symm
      rw [decide_eq_false_iff_not]
      intro hall
      exact hr ⟨(hall hz).1, (hall hz).2.1, (hall hz).2.2.1⟩

/-- C3, as stated, fails for an occupied cell at a negative row: the O piece at column 4, row -1
on the empty grid meets the stated condition (its cells of row -1 are exempt, those of row 0 lie
on empty slots), yet `isValidMove` does not return `true`: the read of `grid[-1][4]` throws. -/
theorem isValidMove_negative_row :
    FitsAboveTop emptyGrid { createTetromino .O with y := -1 } ∧
    isValidMove emptyGrid { createTetromino .O with y := -1 } = none ∧
    isValidMove emptyGrid { createTetromino .O with y := -1 } ≠ some true := by
  decide

/-- C3 (amended to pieces whose anchor row is not negative): on a grid of `GRID_HEIGHT` rows
`isValidMove` returns, and it returns `true` exactly when every occupied cell `(dx, dy)` of the
shape has `0 ≤ x + dx < GRID_WIDTH`, `y + dy < GRID_HEIGHT` and lies on a slot that holds no
color. -/
theorem isValidMove_iff (g : Grid) (p : Piece) (hg : g.length = GRID_HEIGHT) (hy : 0 ≤ p.y) :
    (∃ b, isValidMove g p = some b) ∧ (isValidMove g p = some true ↔ FitsAboveTop g p) := by
  constructor
  · rw [← Option.isSome_iff_exists]
    refine everyIdx_isSome _ _ _ fun k hk => everyIdx_isSome _ _ _ fun j hj => ?_
    rw [cellValid_of_nonneg g p hg hy]
    rfl
  · unfold isValidMove FitsAboveTop
    rw [everyIdx_eq_some_true]
    constructor
    · intro h dy dx hcell
      have h1 := (everyIdx_eq_some_true _ _ _).1 (h dy.1 dy.2) dx.1 dx.2
      rw [cellValid_of_nonneg g p hg hy] at h1
      simp only [Nat.zero_add, Option.some.injEq, decide_eq_true_eq] at h1
      obtain ⟨a, b, c, d⟩ := h1 hcell
      exact ⟨a, b, c, fun _ => d⟩
    · intro h k hk
      rw [everyIdx_eq_some_true]
      intro j hj
      rw [cellValid_of_nonneg g p hg hy]
      simp only [Nat.zero_add, Option.some.injEq, decide_eq_true_eq]
      intro hcell
      obtain ⟨a, b, c, d⟩ := h ⟨k, hk⟩ ⟨j, hj⟩ hcell
      exact ⟨a, b, c, d (by have : (0 : Int) ≤ (k : Int) := Int.natCast_nonneg k
                            omega)⟩

/-- The piece `sampleGrid` is probed with: a T at the spawn position. -/
theorem isValidMove_iff_sample :
    sampleGrid.length = GRID_HEIGHT ∧ 0 ≤ (createTetromino .T).y ∧
    (∃ b, isValidMove sampleGrid (createTetromino .T) = some b) ∧
    (isValidMove sampleGrid (createTetromino .T) = some true ↔
      FitsAboveTop sampleGrid (createTetromino .T)) :=
  ⟨by decide, by decide, isValidMove_iff sampleGrid (createTetromino .T) (by decide) (by decide)⟩

/-! ## Translation -/

/-- C4: when the piece shifted by the offsets is not a valid placement, `moveTetromino` returns
the piece it was given, all five fields as they were; when it is valid, it returns the piece with
`x` and `y` advanced by the offsets and `type`, `shape` and `color` as they were. The grid is an
input only; through the key handler (left, right, down) the grid of the session stays as it
was. -/
theorem moveTetromino_spec (g : Grid) (p : Piece) (dx dy : Int) :
    (isValidMove g { p with x := p.x + dx, y := p.y + dy } = some false →
      moveTetromino g p dx dy = some p) ∧
    (isValidMove g { p with x := p.x + dx, y := p.y + dy } = some true →
      ∃ q, moveTetromino g p dx dy = some q ∧ q.x = p.x + dx ∧ q.y = p.y + dy ∧
        q.type = p.type ∧ q.shape = p.shape ∧ q.color = p.color) ∧
    (∀ (s : State) (fuel : Nat) (k : Key), k = .left ∨ k = .right ∨ k = .down →
      ∃ e, keydown fuel s k = some e ∧ e.state.grid = s.grid) := by
  refine ⟨fun h => ?_, fun h => ?_, fun s fuel k hk => ?_⟩
  · simp [moveTetromino, h]
  · exact ⟨{ p with x := p.x + dx, y := p.y + dy }, by simp [moveTetromino, h],
      rfl, rfl, rfl, rfl, rfl⟩
  · unfold keydown
    split_ifs
    · exact ⟨_, rfl, rfl⟩
    · rcases hk with rfl | rfl | rfl
      · refine ⟨_, rfl, ?_⟩
        cases moveTetromino s.grid s.activePiece (-1) 0 <;> rfl
      · refine ⟨_, rfl, ?_⟩
        cases moveTetromino s.grid s.activePiece 1 0 <;> rfl
      · refine ⟨_, rfl, ?_⟩
        cases moveTetromino s.grid s.activePiece 0 1 <;> rfl

/-- On the empty grid the I piece at the spawn position is not moved by the offsets `(7, 0)`
(its last cell would leave the grid on the right) and is moved by `(1, 0)`; the left key leaves
the grid of the initial session as it was. -/
theorem moveTetromino_spec_sample :
    moveTetromino emptyGrid (createTetromino .I) 7 0 = some (createTetromino .I) ∧
    (∃ q, moveTetromino emptyGrid (createTetromino .I) 1 0 = some q ∧
      q.x = (createTetromino .I).x + 1 ∧ q.y = (createTetromino .I).y + 0 ∧
      q.type = (createTetromino .I).type ∧ q.shape = (createTetromino .I).shape ∧
      q.color = (createTetromino .I).color) ∧
    (∃ e, keydown 0 (initialState .I .O) .left = some e ∧
      e.state.grid = (initialState .I .O).grid) :=
  ⟨(moveTetromino_spec emptyGrid (createTetromino .I) 7 0).1 (by decide),
    (moveTetromino_spec emptyGrid (createTetromino .I) 1 0).2.1 (by decide),
    (moveTetromino_spec emptyGrid (createTetromino .I) 1 0).2.2 _ 0 .left (Or.inl rfl)⟩

/-! ## Rotation -/

theorem entry_rotate (s : Shape) (R C : Nat) (hdims : s.HasDims R C) (i j : Nat)
    (hi : i < C) (hj : j < R) :
    Shape.entry ((List.range C).map fun index =>
      (s.map fun row => (row.get? index).getD none).reverse) i j
      = s.entry (R - 1 - j) i := by
  obtain ⟨hlen, hrows⟩ := hdims
  have hk : R - 1 - j < s.length := by omega
  have hrow : (s[R - 1 - j]).length = C := hrows _ (List.getElem_mem _)
  unfold Shape.entry
  simp only [List.get?_eq_getElem?, List.getElem?_map, List.getElem?_range hi, Option.map_some',
    Option.some_bind]
  rw [List.getElem?_reverse (by simpa [hlen] using hj)]
  simp only [List.length_map, hlen, List.getElem?_map, List.getElem?_eq_getElem hk,
    Option.map_some', Option.some_bind]
  rw [List.getElem?_eq_getElem (by omega)]
  rfl

theorem rotateShape_spec (s : Shape) (R C : Nat) (hdims : s.HasDims R C) (hR : 0 < R) :
    ∃ t, rotateShape s = some t ∧ t.HasDims C R ∧
      ∀ i j, i < C → j < R → t.entry i j = s.entry (R - 1 - j) i := by
  have hd := hdims
  obtain ⟨hlen, hrows⟩ := hdims
  cases s with
  | nil => simp at hlen; omega
  | cons first rest =>
    have hfirst : first.length = C := hrows first (by simp)
    refine ⟨_, rfl, ⟨by simp [hfirst], ?_⟩, ?_⟩
    · intro row hrow
      simp only [List.mem_map, List.mem_range] at hrow
      obtain ⟨i, _, rfl⟩ := hrow
      simpa using hlen
    · intro i j hi hj
      rw [hfirst]
      exact entry_rotate _ R C hd i j hi hj

theorem shape_ext (s t : Shape) (R C : Nat) (hs : s.HasDims R C) (ht : t.HasDims R C)
    (h : ∀ i j, i < R → j < C → s.entry i j = t.entry i j) : s = t := by
  obtain ⟨hsl, hsr⟩ := hs
  obtain ⟨htl, htr⟩ := ht
  apply List.ext_getElem (by omega)
  intro i h1 h2
  have hsi : (s[i]).length = C := hsr _ (List.getElem_mem _)
  have hti : (t[i]).length = C := htr _ (List.getElem_mem _)
  apply List.ext_getElem (by omega)
  intro j h3 h4
  have := h i j (by omega) (by omega)
  unfold Shape.entry at this
  simpa [List.getElem?_eq_getElem h1, List.getElem?_eq_getElem h2, List.getElem?_eq_getElem h3,
    List.getElem?_eq_getElem h4] using this

theorem entry_isSome (s : Shape) (R C : Nat) (hs : s.HasDims R C) (i j : Nat) (hi : i < R)
    (hj : j < C) : (s.entry i j).isSome = true := by
  obtain ⟨hsl, hsr⟩ := hs
  have h1 : i < s.length := by omega
  have hsi : (s[i]).length = C := hsr _ (List.getElem_mem _)
  have h2 : j < (s[i]).length := by omega
  simp [Shape.entry, List.getElem?_eq_getElem h1, List.getElem?_eq_getElem h2]

theorem rotateShape_four (s : Shape) (R C : Nat) (hs : s.HasDims R C) (hR : 0 < R)
    (hC : 0 < C) :
    ∃ t1 t2 t3, rotateShape s = some t1 ∧ rotateShape t1 = some t2 ∧
      rotateShape t2 = some t3 ∧ rotateShape t3 = some s := by
  obtain ⟨t1, h1, d1, e1⟩ := rotateShape_spec s R C hs hR
  obtain ⟨t2, h2, d2, e2⟩ := rotateShape_spec t1 C R d1 hC
  obtain ⟨t3, h3, d3, e3⟩ := rotateShape_spec t2 R C d2 hR
  obtain ⟨t4, h4, d4, e4⟩ := rotateShape_spec t3 C R d3 hC
  refine ⟨t1, t2, t3, h1, h2, h3, ?_⟩
  rw [h4]
  congr 1
  refine shape_ext t4 s R C d4 hs fun i j hi hj => ?_
  rw [e4 i j hi hj, e3 (C - 1 - j) i (by omega) hi, e2 (R - 1 - i) (C - 1 - j) (by omega) (by omega),
    e1 (C - 1 - (C - 1 - j)) (R - 1 - i) (by omega) (by omega)]
  congr 1 <;> omega

/-- C6: for a piece whose shape has `R ≥ 1` rows of `C` entries each, `rotateTetromino` returns a
piece whose shape has `C` rows of `R` entries with `new[i][j] = old[R-1-j][i]`, and whose type,
color, `x` and `y` are those of the input. The grid is no input of the function, and the key
handler installs the result without any check. -/
theorem rotateTetromino_spec (p : Piece) (R C : Nat) (hdims : p.shape.HasDims R C)
    (hR : 0 < R) :
    ∃ q, rotateTetromino p = some q ∧ q.shape.HasDims C R ∧
      (∀ i j, i < C → j < R →
        q.shape.entry i j = p.shape.entry (R - 1 - j) i ∧ (q.shape.entry i j).isSome = true) ∧
      q.type = p.type ∧ q.color = p.color ∧ q.x = p.x ∧ q.y = p.y ∧
      ∀ (s : State) (fuel : Nat), s.isGameOver = false → s.activePiece = p →
        keydown fuel s .rotate = some ⟨{ s with activePiece := q }, false⟩ := by
  obtain ⟨t, ht, hd, he⟩ := rotateShape_spec p.shape R C hdims hR
  refine ⟨{ p with shape := t }, by simp [rotateTetromino, ht], hd,
    fun i j hi hj => ⟨he i j hi hj, entry_isSome t C R hd i j hi hj⟩, rfl, rfl, rfl, rfl, ?_⟩
  intro s fuel hover hp
  subst hp
  simp [keydown, hover, rotateTetromino, ht, setActive]

/-- The T piece at the spawn position: its shape of 2 rows and 3 columns becomes a shape of 3 rows
and 2 columns. -/
theorem rotateTetromino_spec_sample :
    (createTetromino .T).shape.HasDims 2 3 ∧
    ∃ q, rotateTetromino (createTetromino .T) = some q ∧ q.shape.HasDims 3 2 ∧
      (∀ i j, i < 3 → j < 2 →
        q.shape.entry i j = (createTetromino .T).shape.entry (2 - 1 - j) i ∧
          (q.shape.entry i j).isSome = true) ∧
      q.type = (createTetromino .T).type ∧ q.color = (createTetromino .T).color ∧
      q.x = (createTetromino .T).x ∧ q.y = (createTetromino .T).y ∧
      ∀ (s : State) (fuel : Nat), s.isGameOver = false → s.activePiece = createTetromino .T →
        keydown fuel s .rotate = some ⟨{ s with activePiece := q }, false⟩ :=
  ⟨by decide, rotateTetromino_spec (createTetromino .T) 2 3 (by decide) (by decide)⟩

/-- C7: `rotateTetromino` leaves the shape of an O piece as it is, and four applications of
`rotateTetromino` give back the piece, hence its shape matrix, for every shape that is a
rectangular matrix with at least one row and one column, in particular for the seven catalog
shapes (among them the I piece). -/
theorem rotateTetromino_four (p : Piece) :
    (p.shape = SHAPES .O → rotateTetromino p = some p) ∧
    (∀ R C, p.shape.HasDims R C → 0 < R → 0 < C → rotateFourTimes p = some p) ∧
    (∀ type, p.shape = SHAPES type → rotateFourTimes p = some p) := by
  have hgen : ∀ R C, p.shape.HasDims R C → 0 < R → 0 < C → rotateFourTimes p = some p := by
    intro R C hd hR hC
    obtain ⟨t1, t2, t3, h1, h2, h3, h4⟩ := rotateShape_four p.shape R C hd hR hC
    simp [rotateFourTimes, rotateTetromino, h1, h2, h3, h4]
  refine ⟨fun h => ?_, hgen, fun type h => ?_⟩
  · have hrot : rotateShape p.shape = some p.shape := by rw [h]; decide
    simp [rotateTetromino, hrot]
  · cases type
    · exact hgen 1 4 (by rw [h]; decide) (by decide) (by decide)
    · exact hgen 2 2 (by rw [h]; decide) (by decide) (by decide)
    all_goals exact hgen 2 3 (by rw [h]; decide) (by decide) (by decide)

/-- The O piece and the I piece at the spawn position. -/
theorem rotateTetromino_four_sample :
    rotateTetromino (createTetromino .O) = some (createTetromino .O) ∧
    rotateFourTimes (createTetromino .I) = some (createTetromino .I) ∧
    rotateFourTimes (createTetromino .L) = some (createTetromino .L) :=
  ⟨(rotateTetromino_four (createTetromino .O)).1 rfl,
    (rotateTetromino_four (createTetromino .I)).2.1 1 4 (by decide) (by decide) (by decide),
    (rotateTetromino_four (createTetromino .L)).2.2 .L rfl⟩

/-! ## The lock branch of `update` -/

theorem update_lock (s : State) (time : ℚ) (randomType : PieceType) (g1 : Grid) (valid : Bool)
    (hrun : s.isGameOver = false) (hdrop : time - s.lastDropTime > s.dropInterval)
    (hrest : moveTetromino s.grid s.activePiece 0 1 = some s.activePiece)
    (hplace : placePiece s.grid s.activePiece = (g1, true))
    (hnext : isValidMove g1 s.nextPiece = some valid) :
    update s time randomType = ⟨clearAndScore (afterLock s g1 randomType valid) time, false⟩ := by
  unfold update afterLock
  simp only [hrun, Bool.false_eq_true, if_false, hdrop, if_true, hrest, hplace, hnext]

theorem clearAndScore_fields (s : State) (time : ℚ) :
    (clearAndScore s time).grid = (clearLines s.grid).1 ∧
    (clearAndScore s time).currentScore =
      roundNat (s.currentScore + roundNat ((clearLines s.grid).2 * 100)) ∧
    (clearAndScore s time).linesCleared = roundNat (s.linesCleared + (clearLines s.grid).2) ∧
    (clearAndScore s time).level =
      (if roundNat (s.linesCleared + (clearLines s.grid).2) ≥
          roundNat (roundNat (s.level + 1) * 10)
        then roundNat (s.level + 1) else s.level) ∧
    (clearAndScore s time).dropInterval =
      (if roundNat (s.linesCleared + (clearLines s.grid).2) ≥
          roundNat (roundNat (s.level + 1) * 10)
        then roundDouble (s.dropInterval * DECAY) else s.dropInterval) ∧
    (clearAndScore s time).lastDropTime = time ∧
    (clearAndScore s time).isGameOver = s.isGameOver ∧
    (clearAndScore s time).activePiece = s.activePiece ∧
    (clearAndScore s time).nextPiece = s.nextPiece := by
  unfold clearAndScore
  refine ⟨rfl, rfl, rfl, ?_, ?_, rfl, rfl, rfl, rfl⟩ <;> simp only [decide_eq_true_eq]

theorem decay_thousand : roundDouble (1000 * DECAY) = 900 := by
  rw [DECAY_eq, roundDouble_eq _ 9 7916483719987200 (by norm_num) (by norm_num) (by norm_num)
    (by norm_num) (by norm_num) (by norm_num)]
  norm_num

theorem decay_seven_hundred : roundDouble (729 * DECAY) = 5771116631870669 / 8796093022208 := by
  rw [DECAY_eq, roundDouble_eq _ 9 5771116631870669 (by norm_num) (by norm_num) (by norm_num)
    (by norm_num) (by norm_num) (by norm_num)]
  norm_num

theorem gapGrid_locked : placePiece gapGrid lyingI =
    (List.replicate 19 emptyRow ++
      [List.replicate 4 (Cell.color .cyan) ++ List.replicate 6 (Cell.color .red)], true) := by
  decide

theorem gapGrid_cleared : (clearLines (placePiece gapGrid lyingI).1).2 = 1 := by
  rw [clearLines_eq]; decide

/-- C8, as stated for any score and with the product taken exactly, fails: in the session
`largeScoreState` (score `2 ^ 55`, 39 lines, level 3, drop interval 729) the Tick at time 1001
locks the lying I piece and clears one row; the sum `2 ^ 55 + 100` is not a double and the score
becomes `2 ^ 55 + 96`, a growth of 96; the level goes up to 4 and the drop interval becomes the
double nearest to the product of 729 and the double of `0.9`, which is not `729 * 9 / 10`. -/
theorem update_lock_scoring_large :
    moveTetromino largeScoreState.grid largeScoreState.activePiece 0 1 =
      some largeScoreState.activePiece ∧
    (clearLines (placePiece largeScoreState.grid largeScoreState.activePiece).1).2 = 1 ∧
    (update largeScoreState 1001 .T).threw = false ∧
    (update largeScoreState 1001 .T).state.currentScore = 2 ^ 55 + 96 ∧
    (update largeScoreState 1001 .T).state.currentScore ≠
      largeScoreState.currentScore + 100 * 1 ∧
    (update largeScoreState 1001 .T).state.linesCleared = 40 ∧
    (update largeScoreState 1001 .T).state.level = 4 ∧
    (update largeScoreState 1001 .T).state.dropInterval =
      5771116631870669 / 8796093022208 ∧
    (update largeScoreState 1001 .T).state.dropInterval ≠
      largeScoreState.dropInterval * (9 / 10) := by
  have hdrop : (1001 : ℚ) - largeScoreState.lastDropTime > largeScoreState.dropInterval := by
    norm_num [largeScoreState, gapState]
  have hupd := update_lock largeScoreState 1001 .T (placePiece gapGrid lyingI).1
    true rfl hdrop (by decide) (by decide) (by decide)
  obtain ⟨-, hscore, hlines, hlevel, hdropInt, -⟩ :=
    clearAndScore_fields (afterLock largeScoreState (placePiece gapGrid lyingI).1 .T true) 1001
  have hk : (clearLines (afterLock largeScoreState (placePiece gapGrid lyingI).1 .T true).grid).2
      = 1 := gapGrid_cleared
  have hs : (afterLock largeScoreState (placePiece gapGrid lyingI).1 .T true).currentScore
      = 2 ^ 55 := rfl
  have hl : (afterLock largeScoreState (placePiece gapGrid lyingI).1 .T true).linesCleared
      = 39 := rfl
  have hv : (afterLock largeScoreState (placePiece gapGrid lyingI).1 .T true).level = 3 := rfl
  have hd : (afterLock largeScoreState (placePiece gapGrid lyingI).1 .T true).dropInterval
      = 729 := rfl
  rw [hk, hs] at hscore
  rw [hk, hl] at hlines
  rw [hk, hl, hv] at hlevel
  rw [hk, hl, hv, hd] at hdropInt
  have h100 : roundNat (1 * 100) = 100 := roundNat_of_lt _ (by norm_num)
  have h40 : roundNat (39 + 1) = 40 := roundNat_of_lt _ (by norm_num)
  have h4 : roundNat (3 + 1) = 4 := roundNat_of_lt _ (by norm_num)
  have h4t : roundNat (4 * 10) = 40 := roundNat_of_lt _ (by norm_num)
  rw [h100, roundNat_large_score] at hscore
  rw [h40] at hlines
  rw [h40, h4, h4t, if_pos (le_refl _)] at hlevel hdropInt
  rw [decay_seven_hundred] at hdropInt
  rw [hupd]
  refine ⟨by decide, gapGrid_cleared, rfl, hscore, ?_, hlines, hlevel, hdropInt, ?_⟩
  · rw [hscore]
    norm_num [largeScoreState, gapState]
  · rw [hdropInt]
    norm_num [largeScoreState, gapState]

/-- C8 (amended): on a Tick that takes the lock branch and clears `k` rows, the score becomes the
double nearest to the sum of the score and `100 * k`, `linesCleared` the double nearest to its sum
with `k`; when the new `linesCleared` is at least the double of `(level + 1) * 10` the level grows
by one (as a double) and `dropInterval` becomes the double nearest to its product with the double
of `0.9`, once; otherwise both stay. Whenever the score, `linesCleared` and the threshold stay
below `2 ^ 53`, the counters are exact: the score grows by `100 * k`, `linesCleared` by `k`, and
the level grows by one exactly when the new `linesCleared` is at least `(level + 1) * 10`. -/
theorem update_lock_scoring (s : State) (time : ℚ) (randomType : PieceType) (g1 : Grid)
    (valid : Bool)
    (hrun : s.isGameOver = false) (hdrop : time - s.lastDropTime > s.dropInterval)
    (hrest : moveTetromino s.grid s.activePiece 0 1 = some s.activePiece)
    (hplace : placePiece s.grid s.activePiece = (g1, true))
    (hnext : isValidMove g1 s.nextPiece = some valid) :
    (update s time randomType).threw = false ∧
    (update s time randomType).state.currentScore =
      roundNat (s.currentScore + roundNat ((clearLines g1).2 * 100)) ∧
    (update s time randomType).state.linesCleared =
      roundNat (s.linesCleared + (clearLines g1).2) ∧
    (roundNat (s.linesCleared + (clearLines g1).2) ≥ roundNat (roundNat (s.level + 1) * 10) →
      (update s time randomType).state.level = roundNat (s.level + 1) ∧
      (update s time randomType).state.dropInterval = roundDouble (s.dropInterval * DECAY)) ∧
    (¬ roundNat (s.linesCleared + (clearLines g1).2) ≥ roundNat (roundNat (s.level + 1) * 10) →
      (update s time randomType).state.level = s.level ∧
      (update s time randomType).state.dropInterval = s.dropInterval) ∧
    (s.currentScore + 100 * (clearLines g1).2 < 2 ^ 53 →
      s.linesCleared + (clearLines g1).2 < 2 ^ 53 → (s.level + 1) * 10 < 2 ^ 53 →
      (update s time randomType).state.currentScore =
        s.currentScore + 100 * (clearLines g1).2 ∧
      (update s time randomType).state.linesCleared = s.linesCleared + (clearLines g1).2 ∧
      (s.linesCleared + (clearLines g1).2 ≥ (s.level + 1) * 10 →
        (update s time randomType).state.level = s.level + 1 ∧
        (update s time randomType).state.dropInterval = roundDouble (s.dropInterval * DECAY)) ∧
      (¬ s.linesCleared + (clearLines g1).2 ≥ (s.level + 1) * 10 →
        (update s time randomType).state.level = s.level ∧
        (update s time randomType).state.dropInterval = s.dropInterval)) := by
  rw [update_lock s time randomType g1 valid hrun hdrop hrest hplace hnext]
  obtain ⟨-, hscore, hlines, hlevel, hdropInt, -⟩ :=
    clearAndScore_fields (afterLock s g1 randomType valid) time
  have hg : (afterLock s g1 randomType valid).grid = g1 := rfl
  have hs : (afterLock s g1 randomType valid).currentScore = s.currentScore := rfl
  have hl : (afterLock s g1 randomType valid).linesCleared = s.linesCleared := rfl
  have hv : (afterLock s g1 randomType valid).level = s.level := rfl
  have hd : (afterLock s g1 randomType valid).dropInterval = s.dropInterval := rfl
  rw [hg, hs] at hscore
  rw [hg, hl] at hlines
  rw [hg, hl, hv] at hlevel
  rw [hg, hl, hv, hd] at hdropInt
  refine ⟨rfl, hscore, hlines, fun h => ⟨?_, ?_⟩, fun h => ⟨?_, ?_⟩, fun h1 h2 h3 => ?_⟩
  · rw [hlevel]; exact if_pos h
  · rw [hdropInt]; exact if_pos h
  · rw [hlevel]; exact if_neg h
  · rw [hdropInt]; exact if_neg h
  · have e1 : roundNat ((clearLines g1).2 * 100) = (clearLines g1).2 * 100 :=
      roundNat_of_lt _ (by omega)
    have e2 : roundNat (s.currentScore + (clearLines g1).2 * 100) =
        s.currentScore + (clearLines g1).2 * 100 := roundNat_of_lt _ (by omega)
    have e3 : roundNat (s.linesCleared + (clearLines g1).2) = s.linesCleared + (clearLines g1).2 :=
      roundNat_of_lt _ h2
    have e4 : roundNat (s.level + 1) = s.level + 1 := roundNat_of_lt _ (by omega)
    have e5 : roundNat ((s.level + 1) * 10) = (s.level + 1) * 10 := roundNat_of_lt _ h3
    rw [e1, e2] at hscore
    rw [e3] at hlines
    rw [e3, e4, e5] at hlevel hdropInt
    refine ⟨by rw [hscore]; omega, hlines, fun h => ⟨?_, ?_⟩, fun h => ⟨?_, ?_⟩⟩
    · rw [hlevel]; exact if_pos h
    · rw [hdropInt]; exact if_pos h
    · rw [hlevel]; exact if_neg h
    · rw [hdropInt]; exact if_neg h

/-- From score 0, lines 0, level 0 the Tick that completes one row gives score 100, lines 1,
level 0 and a drop interval of 1000; from lines 9 it gives lines 10, level 1 and a drop interval
of 900. -/
theorem update_lock_scoring_sample :
    (update (gapState gapGrid 0 0 0) 1001 .T).state.currentScore = 100 ∧
    (update (gapState gapGrid 0 0 0) 1001 .T).state.linesCleared = 1 ∧
    (update (gapState gapGrid 0 0 0) 1001 .T).state.level = 0 ∧
    (update (gapState gapGrid 0 0 0) 1001 .T).state.dropInterval = 1000 ∧
    (update (gapState gapGrid 900 9 0) 1001 .T).state.currentScore = 1000 ∧
    (update (gapState gapGrid 900 9 0) 1001 .T).state.linesCleared = 10 ∧
    (update (gapState gapGrid 900 9 0) 1001 .T).state.level = 1 ∧
    (update (gapState gapGrid 900 9 0) 1001 .T).state.dropInterval = 900 := by
  have hdrop : ∀ a b c, (1001 : ℚ) - (gapState gapGrid a b c).lastDropTime >
      (gapState gapGrid a b c).dropInterval := by
    intro a b c; norm_num [gapState]
  have h0 := (update_lock_scoring (gapState gapGrid 0 0 0) 1001 .T (placePiece gapGrid lyingI).1
    true rfl (hdrop 0 0 0) (by decide) (by decide) (by decide)).2.2.2.2.2
  have h9 := (update_lock_scoring (gapState gapGrid 900 9 0) 1001 .T
    (placePiece gapGrid lyingI).1 true rfl (hdrop 900 9 0) (by decide) (by decide)
    (by decide)).2.2.2.2.2
  rw [gapGrid_cleared] at h0 h9
  obtain ⟨a1, a2, -, a4⟩ := h0 (by norm_num [gapState]) (by norm_num [gapState])
    (by norm_num [gapState])
  obtain ⟨b1, b2, b3, -⟩ := h9 (by norm_num [gapState]) (by norm_num [gapState])
    (by norm_num [gapState])
  refine ⟨a1, a2, (a4 (by decide)).1, (a4 (by decide)).2, b1, b2, (b3 (by decide)).1, ?_⟩
  rw [(b3 (by decide)).2]
  exact decay_thousand

/-! ## Game over -/

theorem towerGrid_cleared :
    clearLines (placePiece towerGrid lyingI).1 = (emptyRow :: List.replicate 19 towerRow, 1) := by
  rw [clearLines_eq]; decide

/-- C9, as stated, fails: in the session `gapState towerGrid 0 0 0` the Tick at time 1001 locks
the lying I piece, the promoted O piece at the spawn position is not a valid placement and
`isGameOver` becomes true, and still the completed bottom row is removed from the grid and the
score and `linesCleared` grow. -/
theorem update_game_over_clears :
    moveTetromino towerGrid lyingI 0 1 = some lyingI ∧
    isValidMove (placePiece towerGrid lyingI).1 (createTetromino .O) = some false ∧
    (update (gapState towerGrid 0 0 0) 1001 .T).state.isGameOver = true ∧
    (update (gapState towerGrid 0 0 0) 1001 .T).state.grid ≠ (placePiece towerGrid lyingI).1 ∧
    (update (gapState towerGrid 0 0 0) 1001 .T).state.grid =
      emptyRow :: List.replicate 19 towerRow ∧
    (update (gapState towerGrid 0 0 0) 1001 .T).state.currentScore = 100 ∧
    (update (gapState towerGrid 0 0 0) 1001 .T).state.linesCleared = 1 := by
  have hdrop : (1001 : ℚ) - (gapState towerGrid 0 0 0).lastDropTime >
      (gapState towerGrid 0 0 0).dropInterval := by
    norm_num [gapState]
  have hupd := update_lock (gapState towerGrid 0 0 0) 1001 .T (placePiece towerGrid lyingI).1
    false rfl hdrop (by decide) (by decide) (by decide)
  obtain ⟨hgrid, hscore, hlines, -⟩ :=
    clearAndScore_fields (afterLock (gapState towerGrid 0 0 0) (placePiece towerGrid lyingI).1
      .T false) 1001
  have hcl : clearLines (afterLock (gapState towerGrid 0 0 0) (placePiece towerGrid lyingI).1
      .T false).grid = (emptyRow :: List.replicate 19 towerRow, 1) := towerGrid_cleared
  rw [hcl] at hgrid hscore hlines
  rw [hupd]
  refine ⟨by decide, by decide, rfl, ?_, hgrid, hscore, hlines⟩
  rw [hgrid]
  decide

/-- C9 (amended): on a Tick that locks the active piece and whose promoted piece fails
`isValidMove`, `isGameOver` becomes true and the Tick goes on as on any other lock: the grid is the
grid right after the lock with its full rows cleared, the score becomes the double nearest to its
sum with 100 per cleared row, `linesCleared` the double nearest to its sum with the number of
cleared rows, the level and the drop interval follow the level rule, and `lastDropTime` is the
timestamp; while the score, `linesCleared` and the level threshold stay below `2 ^ 53` the score
grows by exactly 100 per cleared row and `linesCleared` by exactly the number of cleared rows. -/
theorem update_lock_game_over (s : State) (time : ℚ) (randomType : PieceType) (g1 : Grid)
    (hrun : s.isGameOver = false) (hdrop : time - s.lastDropTime > s.dropInterval)
    (hrest : moveTetromino s.grid s.activePiece 0 1 = some s.activePiece)
    (hplace : placePiece s.grid s.activePiece = (g1, true))
    (hnext : isValidMove g1 s.nextPiece = some false) :
    (update s time randomType).threw = false ∧
    (update s time randomType).state.isGameOver = true ∧
    (update s time randomType).state.grid = (clearLines g1).1 ∧
    (update s time randomType).state.currentScore =
      roundNat (s.currentScore + roundNat ((clearLines g1).2 * 100)) ∧
    (update s time randomType).state.linesCleared =
      roundNat (s.linesCleared + (clearLines g1).2) ∧
    (update s time randomType).state.level =
      (if roundNat (s.linesCleared + (clearLines g1).2) ≥ roundNat (roundNat (s.level + 1) * 10)
        then roundNat (s.level + 1) else s.level) ∧
    (update s time randomType).state.dropInterval =
      (if roundNat (s.linesCleared + (clearLines g1).2) ≥ roundNat (roundNat (s.level + 1) * 10)
        then roundDouble (s.dropInterval * DECAY) else s.dropInterval) ∧
    (update s time randomType).state.lastDropTime = time ∧
    (update s time randomType).state.activePiece = s.nextPiece ∧
    (s.currentScore + 100 * (clearLines g1).2 < 2 ^ 53 →
      s.linesCleared + (clearLines g1).2 < 2 ^ 53 → (s.level + 1) * 10 < 2 ^ 53 →
      (update s time randomType).state.currentScore =
        s.currentScore + 100 * (clearLines g1).2 ∧
      (update s time randomType).state.linesCleared = s.linesCleared + (clearLines g1).2 ∧
      (update s time randomType).state.level =
        (if s.linesCleared + (clearLines g1).2 ≥ (s.level + 1) * 10 then s.level + 1
          else s.level) ∧
      (update s time randomType).state.dropInterval =
        (if s.linesCleared + (clearLines g1).2 ≥ (s.level + 1) * 10
          then roundDouble (s.dropInterval * DECAY) else s.dropInterval)) := by
  rw [update_lock s time randomType g1 false hrun hdrop hrest hplace hnext]
  obtain ⟨hgrid, hscore, hlines, hlevel, hdropInt, htime, hover, hactive, -⟩ :=
    clearAndScore_fields (afterLock s g1 randomType false) time
  have hg : (afterLock s g1 randomType false).grid = g1 := rfl
  have hs : (afterLock s g1 randomType false).currentScore = s.currentScore := rfl
  have hl : (afterLock s g1 randomType false).linesCleared = s.linesCleared := rfl
  have hv : (afterLock s g1 randomType false).level = s.level := rfl
  have hd : (afterLock s g1 randomType false).dropInterval = s.dropInterval := rfl
  rw [hg, hs] at hscore
  rw [hg, hl] at hlines
  rw [hg, hl, hv] at hlevel
  rw [hg, hl, hv, hd] at hdropInt
  refine ⟨rfl, ?_, hgrid, hscore, hlines, hlevel, hdropInt, htime, hactive, fun h1 h2 h3 => ?_⟩
  · rw [hover]; rfl
  · have e1 : roundNat ((clearLines g1).2 * 100) = (clearLines g1).2 * 100 :=
      roundNat_of_lt _ (by omega)
    have e2 : roundNat (s.currentScore + (clearLines g1).2 * 100) =
        s.currentScore + (clearLines g1).2 * 100 := roundNat_of_lt _ (by omega)
    have e3 : roundNat (s.linesCleared + (clearLines g1).2) = s.linesCleared + (clearLines g1).2 :=
      roundNat_of_lt _ h2
    have e4 : roundNat (s.level + 1) = s.level + 1 := roundNat_of_lt _ (by omega)
    have e5 : roundNat ((s.level + 1) * 10) = (s.level + 1) * 10 := roundNat_of_lt _ h3
    rw [e1, e2] at hscore
    rw [e3] at hlines
    rw [e3, e4, e5] at hlevel hdropInt
    exact ⟨by rw [hscore]; omega, hlines, hlevel, hdropInt⟩

/-- The Tick at time 1001 in the session `gapState towerGrid 40 7 0`. -/
theorem update_lock_game_over_sample :
    (update (gapState towerGrid 40 7 0) 1001 .T).threw = false ∧
    (update (gapState towerGrid 40 7 0) 1001 .T).state.isGameOver = true ∧
    (update (gapState towerGrid 40 7 0) 1001 .T).state.grid =
      emptyRow :: List.replicate 19 towerRow ∧
    (update (gapState towerGrid 40 7 0) 1001 .T).state.currentScore = 140 ∧
    (update (gapState towerGrid 40 7 0) 1001 .T).state.linesCleared = 8 := by
  have hdrop : (1001 : ℚ) - (gapState towerGrid 40 7 0).lastDropTime >
      (gapState towerGrid 40 7 0).dropInterval := by
    norm_num [gapState]
  have h := update_lock_game_over (gapState towerGrid 40 7 0) 1001 .T
    (placePiece towerGrid lyingI).1 rfl hdrop (by decide) (by decide) (by decide)
  rw [towerGrid_cleared] at h
  obtain ⟨h1, h2, h3, -, -, -, -, -, -, h4⟩ := h
  obtain ⟨h5, h6, -⟩ := h4 (by norm_num [gapState]) (by norm_num [gapState])
    (by norm_num [gapState])
  exact ⟨h1, h2, h3, h5, h6⟩

theorem moveTetromino_down (g : Grid) (p : Piece) :
    moveTetromino g p 0 1 =
      match isValidMove g { p with y := p.y + 1 } with
      | none => none
      | some true => some { p with y := p.y + 1 }
      | some false => some p := by
  simp [moveTetromino]

theorem moved_ne (p : Piece) : ({ p with y := p.y + 1 } : Piece) ≠ p := by
  intro h
  have := congrArg Piece.y h
  simp at this

/-- C10: in a running session `update(time)` sets `isGameOver` to true exactly when the drop
threshold fires (`time - lastDropTime > dropInterval`), the active piece moved down one row is not
a valid placement, and the promoted piece at its position fails `isValidMove` against the grid
`placePiece` leaves; in every other case, a `TypeError` included, `isGameOver` stays false. -/
theorem update_isGameOver_iff (s : State) (time : ℚ) (randomType : PieceType)
    (hrun : s.isGameOver = false) :
    (update s time randomType).state.isGameOver = true ↔
      (time - s.lastDropTime > s.dropInterval ∧
        isValidMove s.grid { s.activePiece with y := s.activePiece.y + 1 } = some false ∧
        ∃ g1, placePiece s.grid s.activePiece = (g1, true) ∧
          isValidMove g1 s.nextPiece = some false) := by
  unfold update
  simp only [hrun, Bool.false_eq_true, if_false, moveTetromino_down]
  by_cases hdrop : time - s.lastDropTime > s.dropInterval
  · simp only [hdrop, if_true, true_and]
    cases hmove : isValidMove s.grid { s.activePiece with y := s.activePiece.y + 1 } with
    | none => simp [hrun]
    | some b =>
      cases b
      · simp only [if_true, true_and]
        rcases hplace : placePiece s.grid s.activePiece with ⟨g1, ok⟩
        cases ok
        · simp [hrun]
        · simp only [Prod.mk.injEq, and_true, exists_eq_left']
          cases hnext : isValidMove g1 s.nextPiece with
          | none => simp [hrun]
          | some valid =>
            have := (clearAndScore_fields (afterLock s g1 randomType valid) time).2.2.2.2.2.2.1
            unfold afterLock at this
            simp only [hrun] at this
            rw [this]
            cases valid <;> simp
      · simp [moved_ne, hrun]
  · simp [hdrop, hrun]

/-- The sessions `gapState towerGrid 0 0 0` (game over at time 1001) and
`gapState gapGrid 0 0 0` (the promoted piece is valid, the session keeps running). -/
theorem update_isGameOver_iff_sample :
    (update (gapState towerGrid 0 0 0) 1001 .T).state.isGameOver = true ∧
    (update (gapState gapGrid 0 0 0) 1001 .T).state.isGameOver ≠ true := by
  refine ⟨(update_isGameOver_iff (gapState towerGrid 0 0 0) 1001 .T rfl).2
    ⟨by norm_num [gapState], by decide, _, rfl, by decide⟩, fun h => ?_⟩
  obtain ⟨-, -, g1, hplace, hnext⟩ :=
    (update_isGameOver_iff (gapState gapGrid 0 0 0) 1001 .T rfl).1 h
  have hg : g1 = (placePiece gapGrid lyingI).1 := by
    have := congrArg Prod.fst hplace
    exact this.symm
  rw [hg] at hnext
  revert hnext
  decide

/-! ## Reachable states and the size of the grid -/

theorem reachable_standing : Reachable (openingWith (standingI 4)) :=
  Reachable.key 0 .rotate ⟨openingWith (standingI 4), false⟩ (Reachable.init .I .O) rfl

theorem reachable_right (x : Int) (h0 : 0 ≤ x) (h9 : x < 9)
    (h : Reachable (openingWith (standingI x))) : Reachable (openingWith (standingI (x + 1))) := by
  refine Reachable.key 0 .right ⟨openingWith (standingI (x + 1)), false⟩ h ?_
  have hvalid : isValidMove emptyGrid (standingI (x + 1)) = some true := by
    obtain ⟨n, rfl⟩ := Int.eq_ofNat_of_zero_le h0
    have hn : n < 9 := by omega
    interval_cases n <;> decide
  have hmove : moveTetromino emptyGrid (standingI x) 1 0 = some (standingI (x + 1)) := by
    have : ({ standingI x with x := (standingI x).x + 1, y := (standingI x).y + 0 } : Piece) =
        standingI (x + 1) := by
      simp [standingI, createTetromino]
    simp only [moveTetromino, this, hvalid]
  show keydown 0 (openingWith (standingI x)) .right = _
  simp only [keydown, openingWith, initialState, Bool.false_eq_true, if_false, hmove, setActive]

theorem reachable_overhanging : Reachable (openingWith overhangingI) := by
  have h9 : Reachable (openingWith (standingI 9)) :=
    reachable_right 8 (by decide) (by decide) <| reachable_right 7 (by decide) (by decide) <|
      reachable_right 6 (by decide) (by decide) <| reachable_right 5 (by decide) (by decide) <|
        reachable_right 4 (by decide) (by decide) reachable_standing
  exact Reachable.key 0 .rotate ⟨openingWith overhangingI, false⟩ h9 rfl

theorem overhanging_locked :
    update (openingWith overhangingI) 1001 .T =
      ⟨clearAndScore (afterLock (openingWith overhangingI)
        (placePiece emptyGrid overhangingI).1 .T true) 1001, false⟩ :=
  update_lock (openingWith overhangingI) 1001 .T (placePiece emptyGrid overhangingI).1 true rfl
    (by norm_num [openingWith, initialState]) (by decide) (by decide) (by decide)

/-- C2 fails on the code: from the initial session with an I piece, the keys rotate, right (five
times), rotate and the Tick at time 1001 lead to a session whose grid holds a color in row 0,
column 12, in a row of 13 slots: the rotated piece is installed without a validity check, and the
lock writes its cells past the last column. -/
theorem reachable_grid_not_wellSized :
    ∃ s, Reachable s ∧ s.grid.cell 0 12 = some (Cell.color .cyan) ∧
      (∃ row ∈ s.grid, row.length = 13) ∧ ¬ s.grid.WellSized := by
  have hreach := Reachable.tick 1001 .T reachable_overhanging (by rw [overhanging_locked])
  have hgrid : (update (openingWith overhangingI) 1001 .T).state.grid =
      (List.replicate 9 Cell.null ++ List.replicate 4 (Cell.color .cyan)) ::
        List.replicate 19 emptyRow := by
    rw [overhanging_locked]
    refine (clearAndScore_fields _ 1001).1.trans ?_
    rw [clearLines_eq]
    decide
  refine ⟨_, hreach, ?_, ?_, ?_⟩ <;> rw [hgrid] <;> decide

/-! ## The ended session -/

/-- C11: when `isGameOver` is true, `update(time)` for every timestamp and the key handler for
every key (left, right, down, rotate, hard drop, hold and any other) return normally and leave
every global as it was: grid, pieces, score, lines, level, drop interval, last drop time and the
flag itself. -/
theorem gameOver_frozen (s : State) (hover : s.isGameOver = true) :
    (∀ (time : ℚ) (randomType : PieceType), update s time randomType = ⟨s, false⟩) ∧
    (∀ (fuel : Nat) (k : Key), keydown fuel s k = some ⟨s, false⟩) := by
  constructor
  · intro time randomType
    unfold update
    rw [if_pos hover]
  · intro fuel k
    unfold keydown
    rw [if_pos hover]

/-- The ended session `endedState` under a Tick and under the hard-drop key. -/
theorem gameOver_frozen_sample :
    endedState.isGameOver = true ∧
    update endedState 5000 .I = ⟨endedState, false⟩ ∧
    keydown 0 endedState .space = some ⟨endedState, false⟩ :=
  ⟨rfl, (gameOver_frozen endedState rfl).1 5000 .I, (gameOver_frozen endedState rfl).2 0 .space⟩

/-! ## Spawning -/

/-- C16: for each of the seven types `createTetromino(type)` returns a piece with
`x = floor(GRID_WIDTH / 2) - 1 = 4`, `y = 0`, `shape = SHAPES[type]` and `color = COLORS[type]`;
the grid is no input of the function. -/
theorem createTetromino_spec (type : PieceType) :
    (createTetromino type).x = ((GRID_WIDTH / 2 : Nat) : Int) - 1 ∧
    (createTetromino type).x = 4 ∧
    (createTetromino type).y = 0 ∧
    (createTetromino type).shape = SHAPES type ∧
    (createTetromino type).color = COLORS type ∧
    (createTetromino type).type = type :=
  ⟨rfl, by simp [createTetromino, GRID_WIDTH], rfl, rfl, rfl, rfl⟩

/-! ## Hard drop -/

theorem valid_cell (g : Grid) (p : Piece) (hv : isValidMove g p = some true)
    (k : Nat) (hk : k < p.shape.length) (j : Nat) (hj : j < (p.shape.get ⟨k, hk⟩).length)
    (hocc : (p.shape.get ⟨k, hk⟩).get ⟨j, hj⟩ ≠ some 0) :
    0 ≤ p.x + j ∧ p.x + j < GRID_WIDTH ∧ p.y + k < GRID_HEIGHT ∧
      g.free (p.y + k) (p.x + j) = some true := by
  unfold isValidMove at hv
  have h1 := (everyIdx_eq_some_true _ _ _).1 ((everyIdx_eq_some_true _ _ _).1 hv k hk) j hj
  simp only [Nat.zero_add] at h1
  unfold cellValid at h1
  have hz : ShapeCell.isZero ((p.shape.get ⟨k, hk⟩).get ⟨j, hj⟩) = false := by
    simpa [ShapeCell.isZero] using hocc
  simp only [hz, Bool.false_eq_true, if_false] at h1
  split_ifs at h1 with hr
  · exact ⟨hr.1, hr.2.1, hr.2.2, h1⟩
  · simp at h1

theorem lowered_succ (p : Piece) (n : Nat) :
    ({ p with y := p.y + 1 } : Piece).lowered n = p.lowered (n + 1) := by
  simp only [Piece.lowered, Piece.mk.injEq, true_and]
  push_cast
  omega

theorem lowered_zero (p : Piece) : p.lowered 0 = p := by
  simp [Piece.lowered]

theorem lowered_one (p : Piece) : p.lowered 1 = { p with y := p.y + 1 } := by
  simp [Piece.lowered]

/-- The run of the hard-drop loop: it makes `n` increments, `n` at most `m` whenever `m` bounds
the distance of the anchor row to `GRID_HEIGHT`, every position it passes is valid, and at the
position after the last one `isValidMove` returns `false` (the loop ends) or throws. -/
theorem hardDrop_run (g : Grid) (m : Nat) :
    ∀ p : Piece, p.shape.Occupied → (GRID_HEIGHT - p.y).toNat ≤ m →
      ∃ n, n ≤ m ∧
        (∀ k, 1 ≤ k → k ≤ n → isValidMove g (p.lowered k) = some true) ∧
        ((isValidMove g (p.lowered (n + 1)) = some false ∧
            ∀ fuel, n < fuel → hardDrop g fuel p = .landed (p.lowered n)) ∨
          (isValidMove g (p.lowered (n + 1)) = none ∧
            ∀ fuel, n < fuel → hardDrop g fuel p = .threw (p.lowered n))) := by
  induction m with
  | zero =>
    intro p hocc hm
    obtain ⟨dy, dx, hcell⟩ := hocc
    cases hv : isValidMove g (p.lowered 1) with
    | none =>
      refine ⟨0, Nat.zero_le _, fun k h1 h0 => by omega, Or.inr ⟨hv, fun fuel hf => ?_⟩⟩
      obtain ⟨f, rfl⟩ : ∃ f, fuel = f + 1 := ⟨fuel - 1, by omega⟩
      rw [lowered_one] at hv
      rw [hardDrop, hv, lowered_zero]
    | some b =>
      cases b
      · refine ⟨0, Nat.zero_le _, fun k h1 h0 => by omega, Or.inl ⟨hv, fun fuel hf => ?_⟩⟩
        obtain ⟨f, rfl⟩ : ∃ f, fuel = f + 1 := ⟨fuel - 1, by omega⟩
        rw [lowered_one] at hv
        rw [hardDrop, hv, lowered_zero]
      · exfalso
        have := (valid_cell g (p.lowered 1) hv dy.1 dy.2 dx.1 dx.2 hcell).2.2.1
        simp only [Piece.lowered] at this
        have hnn : (0 : Int) ≤ (dy.1 : Int) := Int.natCast_nonneg _
        omega
  | succ m ih =>
    intro p hocc hm
    obtain ⟨dy, dx, hcell⟩ := hocc
    cases hv : isValidMove g (p.lowered 1) with
    | none =>
      refine ⟨0, Nat.zero_le _, fun k h1 h0 => by omega, Or.inr ⟨hv, fun fuel hf => ?_⟩⟩
      obtain ⟨f, rfl⟩ : ∃ f, fuel = f + 1 := ⟨fuel - 1, by omega⟩
      rw [lowered_one] at hv
      rw [hardDrop, hv, lowered_zero]
    | some b =>
      cases b
      · refine ⟨0, Nat.zero_le _, fun k h1 h0 => by omega, Or.inl ⟨hv, fun fuel hf => ?_⟩⟩
        obtain ⟨f, rfl⟩ : ∃ f, fuel = f + 1 := ⟨fuel - 1, by omega⟩
        rw [lowered_one] at hv
        rw [hardDrop, hv, lowered_zero]
      · have hrow := (valid_cell g (p.lowered 1) hv dy.1 dy.2 dx.1 dx.2 hcell).2.2.1
        simp only [Piece.lowered] at hrow
        have hnn : (0 : Int) ≤ (dy.1 : Int) := Int.natCast_nonneg _
        have hm' : (GRID_HEIGHT - ({ p with y := p.y + 1 } : Piece).y).toNat ≤ m := by
          simp only
          omega
        obtain ⟨n, hn, hmid, hend⟩ := ih { p with y := p.y + 1 } ⟨dy, dx, hcell⟩ hm'
        simp only [lowered_succ] at hmid hend
        refine ⟨n + 1, by omega, fun k h1 hk => ?_, ?_⟩
        · obtain ⟨k', rfl⟩ : ∃ k', k = k' + 1 := ⟨k - 1, by omega⟩
          by_cases h0 : k' = 0
          · subst h0; exact hv
          · exact hmid k' (by omega) (by omega)
        · rw [lowered_one] at hv
          rcases hend with ⟨hlast, hrun⟩ | ⟨hlast, hrun⟩
          · refine Or.inl ⟨hlast, fun fuel hf => ?_⟩
            obtain ⟨f, rfl⟩ : ∃ f, fuel = f + 1 := ⟨fuel - 1, by omega⟩
            rw [hardDrop, hv]
            exact hrun f (by omega)
          · refine Or.inr ⟨hlast, fun fuel hf => ?_⟩
            obtain ⟨f, rfl⟩ : ∃ f, fuel = f + 1 := ⟨fuel - 1, by omega⟩
            rw [hardDrop, hv]
            exact hrun f (by omega)

theorem validMove_returns (g : Grid) (p : Piece) (hg : g.length = GRID_HEIGHT) (hy : 0 ≤ p.y) :
    ∃ b, isValidMove g p = some b := by
  rw [← Option.isSome_iff_exists]
  refine everyIdx_isSome _ _ _ fun k hk => everyIdx_isSome _ _ _ fun j hj => ?_
  rw [cellValid_of_nonneg g p hg hy]
  rfl

theorem validMove_of_blank (g : Grid) (p : Piece) (hblank : ¬ p.shape.Occupied) :
    isValidMove g p = some true := by
  unfold isValidMove
  refine (everyIdx_eq_some_true _ _ _).2 fun k hk => (everyIdx_eq_some_true _ _ _).2 fun j hj => ?_
  have hz : (p.shape.get ⟨k, hk⟩).get ⟨j, hj⟩ = some 0 := by
    by_contra hne
    exact hblank ⟨⟨k, hk⟩, ⟨j, hj⟩, hne⟩
  simp only [List.get_eq_getElem] at hz
  simp [cellValid, ShapeCell.isZero, hz]

theorem hardDrop_blank (g : Grid) (fuel : Nat) :
    ∀ p : Piece, ¬ p.shape.Occupied → hardDrop g fuel p = .running (p.lowered fuel) := by
  induction fuel with
  | zero => intro p _; rw [hardDrop, lowered_zero]
  | succ fuel ih =>
    intro p hblank
    have hv : isValidMove g { p with y := p.y + 1 } = some true :=
      validMove_of_blank g _ hblank
    rw [hardDrop, hv]
    simp only
    rw [ih { p with y := p.y + 1 } hblank, lowered_succ]

/-- C19: for every grid and every piece whose shape has an occupied cell the loop of `hardDrop`
ends, by leaving the loop or by a `TypeError` of `isValidMove`, after a number `n` of increments
`piece.y++` that is at most `GRID_HEIGHT - piece.y` (none when that is negative). For a shape
without occupied cell the loop is still running after any number of iterations. -/
theorem hardDrop_terminates (g : Grid) (p : Piece) :
    (p.shape.Occupied →
      ∃ n, n ≤ (GRID_HEIGHT - p.y).toNat ∧
        ((∀ fuel, n < fuel → hardDrop g fuel p = .landed (p.lowered n)) ∨
          (∀ fuel, n < fuel → hardDrop g fuel p = .threw (p.lowered n)))) ∧
    (¬ p.shape.Occupied → ∀ fuel, hardDrop g fuel p = .running (p.lowered fuel)) := by
  constructor
  · intro hocc
    obtain ⟨n, hn, -, hend⟩ := hardDrop_run g _ p hocc (le_refl _)
    exact ⟨n, hn, hend.imp (fun h => h.2) (fun h => h.2)⟩
  · intro hblank fuel
    exact hardDrop_blank g fuel p hblank

/-- The T piece at the spawn position on the sample grid, and a piece without occupied cell. -/
theorem hardDrop_terminates_sample :
    (∃ n, n ≤ (GRID_HEIGHT - (createTetromino .T).y).toNat ∧
      ((∀ fuel, n < fuel →
          hardDrop sampleGrid fuel (createTetromino .T) = .landed ((createTetromino .T).lowered n)) ∨
        (∀ fuel, n < fuel →
          hardDrop sampleGrid fuel (createTetromino .T) =
            .threw ((createTetromino .T).lowered n)))) ∧
    (∀ fuel, hardDrop sampleGrid fuel blankPiece = .running (blankPiece.lowered fuel)) :=
  ⟨(hardDrop_terminates sampleGrid (createTetromino .T)).1 (by decide),
    (hardDrop_terminates sampleGrid blankPiece).2 (by decide)⟩

/-- C12 (amended to grids of `GRID_HEIGHT` rows): for a piece with an occupied cell and `y ≥ 0`,
`hardDrop` returns the piece moved down by some `n ≥ 0` rows, its type, shape, color and `x` as
they were; the piece is a valid placement at each of the rows `y + 1, ..., y + n` and is not one at
row `y + n + 1`. The key handler installs that piece and leaves the grid as it was. -/
theorem hardDrop_spec (g : Grid) (p : Piece) (hg : g.length = GRID_HEIGHT)
    (hocc : p.shape.Occupied) (hy : 0 ≤ p.y) :
    ∃ n q, (∀ fuel, n < fuel → hardDrop g fuel p = .landed q) ∧
      q.type = p.type ∧ q.shape = p.shape ∧ q.color = p.color ∧ q.x = p.x ∧
      q.y = p.y + n ∧ p.y ≤ q.y ∧
      (∀ k : Nat, 1 ≤ k → k ≤ n → isValidMove g { p with y := p.y + k } = some true) ∧
      isValidMove g { p with y := q.y + 1 } = some false ∧
      ∀ (s : State) (fuel : Nat), s.isGameOver = false → s.grid = g → s.activePiece = p →
        n < fuel → keydown fuel s .space = some ⟨{ s with activePiece := q }, false⟩ := by
  obtain ⟨n, -, hmid, hend⟩ := hardDrop_run g _ p hocc (le_refl _)
  have hlast : isValidMove g (p.lowered (n + 1)) = some false ∧
      ∀ fuel, n < fuel → hardDrop g fuel p = .landed (p.lowered n) := by
    rcases hend with h | ⟨hnone, -⟩
    · exact h
    · obtain ⟨b, hb⟩ := validMove_returns g (p.lowered (n + 1)) hg (by
        simp only [Piece.lowered]
        have : (0 : Int) ≤ ((n + 1 : Nat) : Int) := Int.natCast_nonneg _
        omega)
      rw [hb] at hnone
      cases hnone
  refine ⟨n, p.lowered n, hlast.2, rfl, rfl, rfl, rfl, rfl, ?_, hmid, ?_, ?_⟩
  · simp only [Piece.lowered]
    have : (0 : Int) ≤ (n : Int) := Int.natCast_nonneg _
    omega
  · have := hlast.1
    simp only [Piece.lowered] at this ⊢
    rw [← this]
    congr 2
    push_cast
    omega
  · intro s fuel hrun hgrid hactive hfuel
    subst hgrid hactive
    simp only [keydown, hrun, Bool.false_eq_true, if_false, hlast.2 fuel hfuel]

/-- The T piece at the spawn position on the sample grid: it comes to rest one row lower, above
the full row 3. -/
theorem hardDrop_spec_sample :
    hardDrop sampleGrid 5 (createTetromino .T) = .landed { createTetromino .T with y := 1 } ∧
    ∃ n q, (∀ fuel, n < fuel → hardDrop sampleGrid fuel (createTetromino .T) = .landed q) ∧
      q.type = (createTetromino .T).type ∧ q.shape = (createTetromino .T).shape ∧
      q.color = (createTetromino .T).color ∧ q.x = (createTetromino .T).x ∧
      q.y = (createTetromino .T).y + n ∧ (createTetromino .T).y ≤ q.y ∧
      (∀ k : Nat, 1 ≤ k → k ≤ n →
        isValidMove sampleGrid { createTetromino .T with y := (createTetromino .T).y + k } =
          some true) ∧
      isValidMove sampleGrid { createTetromino .T with y := q.y + 1 } = some false ∧
      ∀ (s : State) (fuel : Nat), s.isGameOver = false → s.grid = sampleGrid →
        s.activePiece = createTetromino .T → n < fuel →
        keydown fuel s .space = some ⟨{ s with activePiece := q }, false⟩ :=
  ⟨by decide, hardDrop_spec sampleGrid (createTetromino .T) (by decide) (by decide) (by decide)⟩

/-! ## Hard drop on the empty grid -/

theorem catalog_mem (type : PieceType) : SHAPES type ∈ catalogRotations := by
  cases type <;> decide

theorem catalog_closed :
    ∀ s ∈ catalogRotations, ∃ t, rotateShape s = some t ∧ t ∈ catalogRotations := by
  decide

theorem catalog_bottom : ∀ s ∈ catalogRotations, s.bottomOccupied = true := by
  decide

theorem rotateShapeN_mem (type : PieceType) (n : Nat) :
    ∃ s, rotateShapeN n (SHAPES type) = some s ∧ s ∈ catalogRotations := by
  induction n with
  | zero => exact ⟨_, rfl, catalog_mem type⟩
  | succ n ih =>
    obtain ⟨s, hs, hmem⟩ := ih
    obtain ⟨t, ht, htmem⟩ := catalog_closed s hmem
    exact ⟨t, by rw [rotateShapeN, hs]; exact ht, htmem⟩

theorem emptyAt_emptyGrid (y x : Nat) : emptyGrid.emptyAt y x = true := by
  unfold Grid.emptyAt Grid.cell emptyGrid emptyRow
  simp only [List.get?_eq_getElem?, List.getElem?_replicate]
  split_ifs <;> simp [List.getElem?_replicate]

theorem emptyGrid_length : emptyGrid.length = GRID_HEIGHT := by
  simp [emptyGrid]

theorem valid_on_empty (p : Piece) (hy : 0 ≤ p.y)
    (h : ∀ k (hk : k < p.shape.length) j (hj : j < (p.shape.get ⟨k, hk⟩).length),
      (p.shape.get ⟨k, hk⟩).get ⟨j, hj⟩ ≠ some 0 →
        0 ≤ p.x + j ∧ p.x + j < GRID_WIDTH ∧ p.y + k < GRID_HEIGHT) :
    isValidMove emptyGrid p = some true := by
  unfold isValidMove
  refine (everyIdx_eq_some_true _ _ _).2 fun k hk => (everyIdx_eq_some_true _ _ _).2 fun j hj => ?_
  rw [cellValid_of_nonneg emptyGrid p emptyGrid_length hy]
  simp only [Nat.zero_add, Option.some.injEq, decide_eq_true_eq]
  intro hcell
  obtain ⟨a, b, c⟩ := h k hk j hj hcell
  exact ⟨a, b, c, emptyAt_emptyGrid _ _⟩

theorem bottom_cell (s : Shape) (hb : s.bottomOccupied = true) :
    ∃ (hk : s.length - 1 < s.length) (j : Nat) (hj : j < (s.get ⟨s.length - 1, hk⟩).length),
      (s.get ⟨s.length - 1, hk⟩).get ⟨j, hj⟩ ≠ some 0 := by
  unfold Shape.bottomOccupied at hb
  cases hlast : s.getLast? with
  | none => simp [hlast] at hb
  | some row =>
    simp only [hlast, List.any_eq_true, bne_iff_ne, ne_eq] at hb
    obtain ⟨cell, hmem, hne⟩ := hb
    have hne0 : s ≠ [] := by
      intro h0; simp [h0] at hlast
    have hk : s.length - 1 < s.length := by
      have := List.length_pos.2 hne0
      omega
    have hrow : s.get ⟨s.length - 1, hk⟩ = row := by
      rw [List.getLast?_eq_getElem?] at hlast
      rw [List.getElem?_eq_getElem hk] at hlast
      simpa using hlast
    obtain ⟨j, hj, hget⟩ := List.getElem_of_mem hmem
    refine ⟨hk, j, by rw [hrow]; exact hj, ?_⟩
    simp only [List.get_eq_getElem] at hrow ⊢
    simp only [hrow, hget]
    exact hne

theorem hardDrop_empty_lands (p : Piece) (hb : p.shape.bottomOccupied = true) (hy : 0 ≤ p.y)
    (hv : isValidMove emptyGrid p = some true) :
    ∃ n : Nat, p.y + n = GRID_HEIGHT - p.shape.length ∧
      ∀ fuel, n < fuel → hardDrop emptyGrid fuel p = .landed (p.lowered n) := by
  obtain ⟨hk, j, hj, hcell⟩ := bottom_cell p.shape hb
  have hocc : p.shape.Occupied := ⟨⟨_, hk⟩, ⟨j, hj⟩, hcell⟩
  obtain ⟨n, -, hmid, hend⟩ := hardDrop_run emptyGrid _ p hocc (le_refl _)
  have hnn : ∀ m : Nat, (0 : Int) ≤ (m : Int) := Int.natCast_nonneg
  have hpos : 0 < p.shape.length := by omega
  have hcast : ((p.shape.length - 1 : Nat) : Int) = (p.shape.length : Int) - 1 := by omega
  -- the resting position is valid, so its last row lies on the grid
  have hrest : isValidMove emptyGrid (p.lowered n) = some true := by
    by_cases h0 : n = 0
    · subst h0; rw [lowered_zero]; exact hv
    · exact hmid n (by omega) (le_refl _)
  have hupper := (valid_cell emptyGrid (p.lowered n) hrest _ hk j hj hcell).2.2.1
  simp only [Piece.lowered, hcast] at hupper
  -- one row lower the piece is not valid, so its last row has left the grid
  have hlast : isValidMove emptyGrid (p.lowered (n + 1)) ≠ some true := by
    rcases hend with ⟨h, -⟩ | ⟨h, -⟩ <;> rw [h] <;> simp
  have hlower : ¬ (p.y + n + 1 + p.shape.length - 1 < GRID_HEIGHT) := by
    intro hlt
    refine hlast (valid_on_empty (p.lowered (n + 1)) ?_ fun k hk' j' hj' hc => ?_)
    · simp only [Piece.lowered]
      have := hnn (n + 1)
      omega
    · obtain ⟨a, b, -⟩ := valid_cell emptyGrid p hv k hk' j' hj' hc
      refine ⟨a, b, ?_⟩
      simp only [Piece.lowered]
      have hk2 : k < p.shape.length := hk'
      push_cast
      omega
  have hland : ∀ fuel, n < fuel → hardDrop emptyGrid fuel p = .landed (p.lowered n) := by
    rcases hend with ⟨-, h⟩ | ⟨hnone, -⟩
    · exact h
    · obtain ⟨b, hb'⟩ := validMove_returns emptyGrid (p.lowered (n + 1)) emptyGrid_length (by
        simp only [Piece.lowered]
        have := hnn (n + 1)
        omega)
      rw [hb'] at hnone
      cases hnone
  exact ⟨n, by omega, hland⟩

/-- C13: on the empty grid, for a piece whose shape is a catalog shape rotated any number of
times, at a valid position with `y ≥ 0`, `hardDrop` moves the piece down by exactly
`(GRID_HEIGHT - 1) - (y + rows - 1)` rows: the result has `y = GRID_HEIGHT - rows`, its last row
on the floor row `GRID_HEIGHT - 1`. The key handler installs it and leaves the grid empty. -/
theorem hardDrop_empty_spec (type : PieceType) (k : Nat) (p : Piece)
    (hshape : rotateShapeN k (SHAPES type) = some p.shape) (hy : 0 ≤ p.y)
    (hv : isValidMove emptyGrid p = some true) :
    ∃ n : Nat, (n : Int) = (GRID_HEIGHT - 1) - (p.y + p.shape.length - 1) ∧
      (∀ fuel, n < fuel →
        hardDrop emptyGrid fuel p = .landed { p with y := GRID_HEIGHT - p.shape.length }) ∧
      ∀ (s : State) (fuel : Nat), s.isGameOver = false → s.grid = emptyGrid →
        s.activePiece = p → n < fuel →
        ∃ e, keydown fuel s .space = some e ∧ e.threw = false ∧ e.state.grid = emptyGrid ∧
          e.state.activePiece.y = GRID_HEIGHT - p.shape.length ∧
          e.state.activePiece.y + p.shape.length - 1 = GRID_HEIGHT - 1 := by
  obtain ⟨s, hs, hmem⟩ := rotateShapeN_mem type k
  have hb : p.shape.bottomOccupied = true := by
    rw [hshape] at hs
    cases hs
    exact catalog_bottom _ hmem
  obtain ⟨n, hn, hland⟩ := hardDrop_empty_lands p hb hy hv
  have hq : p.lowered n = { p with y := GRID_HEIGHT - p.shape.length } := by
    simp only [Piece.lowered, hn]
  rw [hq] at hland
  refine ⟨n, by omega, hland, fun s fuel hrun hgrid hactive hfuel => ?_⟩
  subst hactive
  refine ⟨⟨{ s with activePiece :=
    { s.activePiece with y := GRID_HEIGHT - s.activePiece.shape.length } }, false⟩, ?_, rfl,
    hgrid, rfl, ?_⟩
  · simp only [keydown, hrun, Bool.false_eq_true, if_false, hgrid, hland fuel hfuel]
  · simp only
    omega

/-- The L piece rotated once (three rows), two columns right of the spawn column at row 2 of
the empty grid: the hard drop moves it down by 15 rows to row 17. -/
theorem hardDrop_empty_spec_sample :
    rotateShapeN 1 (SHAPES .L) = some [[some 1, some 0], [some 1, some 0], [some 1, some 1]] ∧
    ∃ n : Nat, (n : Int) = (GRID_HEIGHT - 1) - (2 + 3 - 1) ∧
      ∀ fuel, n < fuel →
        hardDrop emptyGrid fuel
            { createTetromino .L with
              shape := [[some 1, some 0], [some 1, some 0], [some 1, some 1]], x := 6, y := 2 } =
          .landed { createTetromino .L with
              shape := [[some 1, some 0], [some 1, some 0], [some 1, some 1]], x := 6, y := 17 } := by
  refine ⟨by decide, ?_⟩
  obtain ⟨n, hn, hland, -⟩ := hardDrop_empty_spec .L 1
    { createTetromino .L with
      shape := [[some 1, some 0], [some 1, some 0], [some 1, some 1]], x := 6, y := 2 }
    (by decide) (by decide) (by decide)
  exact ⟨n, hn, hland⟩

/-! ## Locking a piece -/

theorem write_spec (g : Grid) (hg : g.WellSized) (y x : Int) (c : Color)
    (hy0 : 0 ≤ y) (hy : y < GRID_HEIGHT) (hx0 : 0 ≤ x) (hx : x < GRID_WIDTH) :
    ∃ g', g.write y x c = some g' ∧ g'.WellSized ∧
      (∀ r col : Nat, y = r ∧ x = col → g'.cell r col = some (Cell.color c)) ∧
      (∀ r col : Nat, ¬ (y = r ∧ x = col) → g'.cell r col = g.cell r col) := by
  obtain ⟨hlen, hrows⟩ := hg
  have hyn : y.toNat < g.length := by omega
  have hrow : (g[y.toNat]).length = GRID_WIDTH := hrows _ (List.getElem_mem _)
  have hxn : x.toNat < (g[y.toNat]).length := by omega
  refine ⟨g.set y.toNat ((g[y.toNat]).set x.toNat (Cell.color c)), ?_, ⟨?_, ?_⟩, ?_, ?_⟩
  · unfold Grid.write Row.write
    rw [if_neg (by omega), List.get?_eq_get hyn]
    simp only [List.get_eq_getElem]
    rw [if_neg (by omega), if_pos hxn]
  · simpa using hlen
  · intro row hmem
    rcases List.mem_or_eq_of_mem_set hmem with h | h
    · exact hrows row h
    · rw [h, List.length_set]; exact hrow
  · rintro r col ⟨rfl, rfl⟩
    simp only [Int.toNat_ofNat] at hyn hxn ⊢
    simp [Grid.cell, List.getElem?_set, hyn, hxn]
  · intro r col hne
    unfold Grid.cell
    simp only [List.get?_eq_getElem?, List.getElem?_set]
    by_cases hr : y.toNat = r
    · subst hr
      have hc : x.toNat ≠ col := by
        intro hc
        apply hne
        constructor <;> omega
      simp [hyn, List.getElem?_set, hc, List.getElem?_eq_getElem hyn]
    · simp [hr]

theorem rowCovers_cons (cell : ShapeCell) (rest : List ShapeCell) (x0 : Int) (col : Nat) :
    RowCovers (cell :: rest) x0 col ↔
      (cell.truthy = true ∧ x0 = col) ∨ RowCovers rest (x0 + 1) col := by
  constructor
  · rintro ⟨⟨j, hj⟩, ht, hx⟩
    cases j with
    | zero => left; exact ⟨ht, by simpa using hx⟩
    | succ j =>
      right
      refine ⟨⟨j, by simpa using hj⟩, ht, ?_⟩
      simp only at hx ⊢
      push_cast at hx
      omega
  · rintro (⟨ht, hx⟩ | ⟨⟨j, hj⟩, ht, hx⟩)
    · exact ⟨⟨0, by simp⟩, ht, by simpa using hx⟩
    · refine ⟨⟨j + 1, by simpa using hj⟩, ht, ?_⟩
      simp only at hx ⊢
      push_cast
      omega

theorem rowsCover_cons (row : List ShapeCell) (rest : List (List ShapeCell)) (x0 y0 : Int)
    (r col : Nat) :
    RowsCover (row :: rest) x0 y0 r col ↔
      (y0 = r ∧ RowCovers row x0 col) ∨ RowsCover rest x0 (y0 + 1) r col := by
  constructor
  · rintro ⟨⟨k, hk⟩, hy, hc⟩
    cases k with
    | zero => left; exact ⟨by simpa using hy, hc⟩
    | succ k =>
      right
      refine ⟨⟨k, by simpa using hk⟩, ?_, hc⟩
      simp only at hy ⊢
      push_cast at hy
      omega
  · rintro (⟨hy, hc⟩ | ⟨⟨k, hk⟩, hy, hc⟩)
    · exact ⟨⟨0, by simp⟩, by simpa using hy, hc⟩
    · refine ⟨⟨k + 1, by simpa using hk⟩, ?_, hc⟩
      simp only at hy ⊢
      push_cast
      omega

theorem rowFits_cons (cell : ShapeCell) (rest : List ShapeCell) (x0 y : Int)
    (h : RowFits (cell :: rest) x0 y) :
    (cell.truthy = true → 0 ≤ y ∧ y < GRID_HEIGHT ∧ 0 ≤ x0 ∧ x0 < GRID_WIDTH) ∧
      RowFits rest (x0 + 1) y := by
  constructor
  · intro ht
    simpa using h ⟨0, by simp⟩ ht
  · rintro ⟨j, hj⟩ ht
    have := h ⟨j + 1, by simpa using hj⟩ ht
    simp only at this ⊢
    push_cast at this
    omega

theorem rowsFit_cons (row : List ShapeCell) (rest : List (List ShapeCell)) (x0 y0 : Int)
    (h : RowsFit (row :: rest) x0 y0) : RowFits row x0 y0 ∧ RowsFit rest x0 (y0 + 1) := by
  constructor
  · simpa using h ⟨0, by simp⟩
  · rintro ⟨k, hk⟩
    have := h ⟨k + 1, by simpa using hk⟩
    simp only [List.get_eq_getElem, List.getElem_cons_succ] at this ⊢
    have e : y0 + ((k + 1 : Nat) : Int) = y0 + 1 + (k : Int) := by push_cast; omega
    rw [e] at this
    exact this

theorem placeRow_spec (c : Color) (px py : Int) (dy : Nat) (cells : List ShapeCell) :
    ∀ (dx : Nat) (g : Grid), g.WellSized → RowFits cells (px + dx) (py + dy) →
      ∃ g', placeRow c px py dy cells dx g = (g', true) ∧ g'.WellSized ∧
        (∀ r col : Nat, py + dy = r ∧ RowCovers cells (px + dx) col →
          g'.cell r col = some (Cell.color c)) ∧
        (∀ r col : Nat, ¬ (py + dy = r ∧ RowCovers cells (px + dx) col) →
          g'.cell r col = g.cell r col) := by
  induction cells with
  | nil =>
    intro dx g hg _
    refine ⟨g, rfl, hg, ?_, fun _ _ _ => rfl⟩
    rintro r col ⟨-, ⟨j, -⟩⟩
    exact absurd j.2 (by simp)
  | cons cell rest ih =>
    intro dx g hg hfit
    obtain ⟨hhead, htail⟩ := rowFits_cons cell rest _ _ hfit
    have hcast : px + (dx : Int) + 1 = px + ((dx + 1 : Nat) : Int) := by push_cast; omega
    rw [hcast] at htail
    cases ht : cell.truthy with
    | false =>
      obtain ⟨g', hrun, hsz, hset, hkeep⟩ := ih (dx + 1) g hg htail
      refine ⟨g', by rw [placeRow]; simp only [ht, Bool.false_eq_true, if_false]; exact hrun, hsz,
        ?_, ?_⟩
      · rintro r col ⟨hy, hc⟩
        rw [rowCovers_cons, hcast] at hc
        rcases hc with ⟨h1, -⟩ | hc
        · rw [ht] at h1; cases h1
        · exact hset r col ⟨hy, hc⟩
      · intro r col hn
        refine hkeep r col fun hc => hn ⟨hc.1, ?_⟩
        rw [rowCovers_cons, hcast]
        exact Or.inr hc.2
    | true =>
      obtain ⟨hy0, hy1, hx0, hx1⟩ := hhead ht
      obtain ⟨g1, hw, hsz1, hset1, hkeep1⟩ := write_spec g hg _ _ c hy0 hy1 hx0 hx1
      obtain ⟨g', hrun, hsz, hset, hkeep⟩ := ih (dx + 1) g1 hsz1 htail
      refine ⟨g', by rw [placeRow]; simp only [ht, if_true, hw]; exact hrun, hsz, ?_, ?_⟩
      · rintro r col ⟨hy, hc⟩
        by_cases hrest : RowCovers rest (px + ((dx + 1 : Nat) : Int)) col
        · exact hset r col ⟨hy, hrest⟩
        · rw [hkeep r col fun h => hrest h.2]
          rw [rowCovers_cons, hcast] at hc
          rcases hc with ⟨-, hx⟩ | hc
          · exact hset1 r col ⟨hy, hx⟩
          · exact absurd hc hrest
      · intro r col hn
        have h1 : ¬ (py + (dy : Int) = r ∧ RowCovers rest (px + ((dx + 1 : Nat) : Int)) col) := by
          intro hc
          apply hn
          refine ⟨hc.1, ?_⟩
          rw [rowCovers_cons, hcast]
          exact Or.inr hc.2
        rw [hkeep r col h1]
        refine hkeep1 r col fun hc => hn ⟨hc.1, ?_⟩
        rw [rowCovers_cons]
        exact Or.inl ⟨ht, hc.2⟩

theorem placeRows_spec (c : Color) (px py : Int) (rows : List (List ShapeCell)) :
    ∀ (dy : Nat) (g : Grid), g.WellSized → RowsFit rows px (py + dy) →
      ∃ g', placeRows c px py rows dy g = (g', true) ∧ g'.WellSized ∧
        (∀ r col : Nat, RowsCover rows px (py + dy) r col →
          g'.cell r col = some (Cell.color c)) ∧
        (∀ r col : Nat, ¬ RowsCover rows px (py + dy) r col → g'.cell r col = g.cell r col) := by
  induction rows with
  | nil =>
    intro dy g hg _
    refine ⟨g, rfl, hg, ?_, fun _ _ _ => rfl⟩
    rintro r col ⟨k, -⟩
    exact absurd k.2 (by simp)
  | cons row rest ih =>
    intro dy g hg hfit
    obtain ⟨hhead, htail⟩ := rowsFit_cons row rest _ _ hfit
    have hcast : py + (dy : Int) + 1 = py + ((dy + 1 : Nat) : Int) := by push_cast; omega
    have hzero : px + ((0 : Nat) : Int) = px := by simp
    rw [hcast] at htail
    obtain ⟨g1, hrun1, hsz1, hset1, hkeep1⟩ :=
      placeRow_spec c px py dy row 0 g hg (by rw [hzero]; exact hhead)
    rw [hzero] at hset1 hkeep1
    obtain ⟨g', hrun, hsz, hset, hkeep⟩ := ih (dy + 1) g1 hsz1 htail
    refine ⟨g', by rw [placeRows, hrun1]; exact hrun, hsz, ?_, ?_⟩
    · intro r col hc
      by_cases hrest : RowsCover rest px (py + ((dy + 1 : Nat) : Int)) r col
      · exact hset r col hrest
      · rw [hkeep r col hrest]
        rw [rowsCover_cons, hcast] at hc
        rcases hc with hc | hc
        · exact hset1 r col hc
        · exact absurd hc hrest
    · intro r col hn
      have h1 : ¬ RowsCover rest px (py + ((dy + 1 : Nat) : Int)) r col := by
        intro hc
        apply hn
        rw [rowsCover_cons, hcast]
        exact Or.inr hc
      rw [hkeep r col h1]
      refine hkeep1 r col fun hc => hn ?_
      rw [rowsCover_cons]
      exact Or.inl hc

theorem free_nonneg (g : Grid) (y x : Int) (b : Bool) (h : g.free y x = some b) : 0 ≤ y := by
  unfold Grid.free at h
  by_contra hneg
  rw [if_pos (by omega)] at h
  cases h

theorem truthy_ne_zero (cell : ShapeCell) (h : cell.truthy = true) : cell ≠ some 0 := by
  rintro rfl
  simp [ShapeCell.truthy] at h

theorem rowsFit_of_valid (g : Grid) (p : Piece) (hv : isValidMove g p = some true) :
    RowsFit p.shape p.x (p.y + (0 : Nat)) := by
  rintro ⟨k, hk⟩ ⟨j, hj⟩ ht
  obtain ⟨a, b, c, d⟩ := valid_cell g p hv k hk j hj (truthy_ne_zero _ ht)
  have hy := free_nonneg g _ _ _ d
  simp only [Nat.cast_zero, Int.add_zero]
  exact ⟨hy, c, a, b⟩

theorem covers_iff (p : Piece) (r c : Nat) :
    Covers p r c ↔ RowsCover p.shape p.x (p.y + (0 : Nat)) r c := by
  simp only [Nat.cast_zero, Int.add_zero]
  constructor
  · rintro ⟨dy, dx, ht, hy, hx⟩
    exact ⟨dy, hy, dx, ht, hx⟩
  · rintro ⟨dy, hy, dx, ht, hx⟩
    exact ⟨dy, dx, ht, hy, hx⟩

/-- C14: on a grid of `GRID_HEIGHT` rows of `GRID_WIDTH` cells, for a piece that is a valid
placement (all its occupied cells then lie at rows `≥ 0`), `placePiece` returns normally, the slot
at `(y + dy, x + dx)` holds the color of the piece for every occupied cell `(dx, dy)` of the shape,
every other slot is as before, and the grid still has `GRID_HEIGHT` rows of `GRID_WIDTH` cells. -/
theorem placePiece_spec (g : Grid) (p : Piece) (hg : g.WellSized)
    (hv : isValidMove g p = some true) :
    ∃ g', placePiece g p = (g', true) ∧ g'.WellSized ∧
      (∀ r c : Nat, Covers p r c → g'.cell r c = some (Cell.color p.color)) ∧
      (∀ r c : Nat, ¬ Covers p r c → g'.cell r c = g.cell r c) := by
  obtain ⟨g', hrun, hsz, hset, hkeep⟩ :=
    placeRows_spec p.color p.x p.y p.shape 0 g hg (rowsFit_of_valid g p hv)
  refine ⟨g', hrun, hsz, fun r c hc => hset r c ((covers_iff p r c).1 hc), fun r c hn => ?_⟩
  exact hkeep r c fun hc => hn ((covers_iff p r c).2 hc)

/-- The T piece at the spawn position on the sample grid: the four slots it covers take its
color, the slot to the left of its top cell stays empty. -/
theorem placePiece_spec_sample :
    sampleGrid.WellSized ∧ isValidMove sampleGrid (createTetromino .T) = some true ∧
    ∃ g', placePiece sampleGrid (createTetromino .T) = (g', true) ∧ g'.WellSized ∧
      g'.cell 0 5 = some (Cell.color .purple) ∧ g'.cell 1 4 = some (Cell.color .purple) ∧
      g'.cell 1 5 = some (Cell.color .purple) ∧ g'.cell 1 6 = some (Cell.color .purple) ∧
      g'.cell 0 4 = sampleGrid.cell 0 4 := by
  obtain ⟨g', hrun, hsz, hset, hkeep⟩ :=
    placePiece_spec sampleGrid (createTetromino .T) (by decide) (by decide)
  exact ⟨by decide, by decide, g', hrun, hsz, hset 0 5 (by decide), hset 1 4 (by decide),
    hset 1 5 (by decide), hset 1 6 (by decide), hkeep 0 4 (by decide)⟩

/-! ## Reachable states and the rows a lock writes -/

theorem update_lock_throws (s : State) (time : ℚ) (randomType : PieceType) (g1 : Grid)
    (hrun : s.isGameOver = false) (hdrop : time - s.lastDropTime > s.dropInterval)
    (hrest : moveTetromino s.grid s.activePiece 0 1 = some s.activePiece)
    (hplace : placePiece s.grid s.activePiece = (g1, false)) :
    update s time randomType = ⟨{ s with grid := g1 }, true⟩ := by
  unfold update
  simp only [hrun, Bool.false_eq_true, if_false, hdrop, if_true, hrest, hplace]

theorem reachable_resting : Reachable (openingWith restingI) :=
  Reachable.key 20 .space ⟨openingWith restingI, false⟩ (Reachable.init .I .O) (by decide)

theorem reachable_sunken : Reachable (openingWith sunkenI) :=
  Reachable.key 0 .rotate ⟨openingWith sunkenI, false⟩ reachable_resting rfl

/-- C15 fails on the code: from the initial session with an I piece, the hard-drop key and the
rotate key lead to a session whose active piece stands upright at row 19, its second cell at row
20; the Tick at time 1001 takes the lock branch, and `placePiece` throws at `grid[20][4]` after it
has written row 19, so `update` does not return. -/
theorem reachable_lock_throws :
    ∃ s, Reachable s ∧ s.isGameOver = false ∧
      (1001 : ℚ) - s.lastDropTime > s.dropInterval ∧
      moveTetromino s.grid s.activePiece 0 1 = some s.activePiece ∧
      s.activePiece.shape.entry 1 0 = some (some 1) ∧ s.activePiece.y + 1 = GRID_HEIGHT ∧
      (placePiece s.grid s.activePiece).2 = false ∧
      (update s 1001 .T).threw = true ∧
      (update s 1001 .T).state.grid.cell 19 4 = some (Cell.color .cyan) := by
  have hdrop : (1001 : ℚ) - (openingWith sunkenI).lastDropTime >
      (openingWith sunkenI).dropInterval := by
    norm_num [openingWith, initialState]
  have hupd := update_lock_throws (openingWith sunkenI) 1001 .T
    (placePiece emptyGrid sunkenI).1 rfl hdrop (by decide) (by decide)
  refine ⟨openingWith sunkenI, reachable_sunken, rfl, hdrop, by decide, by decide, by decide,
    by decide, ?_, ?_⟩
  · rw [hupd]
  · rw [hupd]; decide

/-! ## Line clearing under the promoted piece -/

theorem filter_index {α : Type} (q : α → Bool) :
    ∀ (l : List α) (j : Nat) (a : α), (l.filter q)[j]? = some a →
      ∃ i, j ≤ i ∧ i + (l.filter q).length ≤ j + l.length ∧ l[i]? = some a := by
  intro l
  induction l with
  | nil => intro j a h; simp at h
  | cons b t ih =>
    intro j a h
    have hle := List.length_filter_le q t
    cases hq : q b with
    | false =>
      rw [List.filter_cons_of_neg (by simp [hq])] at h ⊢
      obtain ⟨i, h1, h2, h3⟩ := ih j a h
      exact ⟨i + 1, by omega, by simp only [List.length_cons]; omega, by simpa using h3⟩
    | true =>
      rw [List.filter_cons_of_pos hq] at h ⊢
      cases j with
      | zero =>
        refine ⟨0, le_refl _, by simp only [List.length_cons]; omega, ?_⟩
        simpa using h
      | succ j =>
        obtain ⟨i, h1, h2, h3⟩ := ih j a (by simpa using h)
        exact ⟨i + 1, by omega, by simp only [List.length_cons]; omega, by simpa using h3⟩

theorem emptyAt_of_row (g : Grid) (r c : Nat) (row : Row) (h : g[r]? = some row) :
    g.emptyAt r c = row.slotFree c := by
  unfold Grid.emptyAt Grid.cell Row.slotFree
  simp only [List.get?_eq_getElem?, h, Option.some_bind]

theorem slotFree_emptyRow (c : Nat) : emptyRow.slotFree c = true := by
  unfold Row.slotFree emptyRow
  simp only [List.get?_eq_getElem?, List.getElem?_replicate]
  split_ifs <;> rfl

/-- After `clearLines` on a grid of `GRID_HEIGHT` rows, a row above the `k`-th is fresh, and a row
from the `k`-th on is a row of the grid before that was at most `k` rows higher (`k` the number of
full rows): rows only move down. -/
theorem cleared_emptyAt (g : Grid) (hlen : g.length = GRID_HEIGHT) (r c : Nat)
    (hr : r < GRID_HEIGHT) :
    (r < (clearLines g).2 → (clearLines g).1.emptyAt r c = true) ∧
    ((clearLines g).2 ≤ r →
      ∃ i, r ≤ i + (clearLines g).2 ∧ i ≤ r ∧ (clearLines g).1.emptyAt r c = g.emptyAt i c) := by
  have hsum := length_filter_not_full g
  have hk : GRID_HEIGHT - (g.filter (fun row => !rowFull row)).length = g.countP rowFull := by
    omega
  rw [clearLines_eq, hk]
  simp only
  constructor
  · intro hlt
    rw [emptyAt_of_row _ r c emptyRow (by
      rw [List.getElem?_append_left (by simpa using hlt)]
      simp [List.getElem?_replicate, hlt])]
    exact slotFree_emptyRow c
  · intro hge
    have hj : r - g.countP rowFull < (g.filter (fun row => !rowFull row)).length := by omega
    obtain ⟨i, h1, h2, h3⟩ := filter_index (fun row => !rowFull row) g _ _
      (List.getElem?_eq_getElem hj)
    refine ⟨i, by omega, by omega, ?_⟩
    rw [emptyAt_of_row _ r c _ (by
      rw [List.getElem?_append_right (by simpa using hge)]
      simp only [List.length_replicate]
      exact List.getElem?_eq_getElem hj), emptyAt_of_row g i c _ h3]

theorem cleared_length (g : Grid) (hlen : g.length = GRID_HEIGHT) :
    (clearLines g).1.length = GRID_HEIGHT := by
  have hsum := length_filter_not_full g
  rw [clearLines_eq]
  simp only [List.length_append, List.length_replicate]
  omega

/-- C17, as stated, fails: on `floatGrid` (a color in row 0, column 4, and a full last row) the T
piece at the spawn position is a valid placement, and after `clearLines` has removed the last row
the color lies in row 1, column 4, under the left cell of the piece: the placement is not valid any
more. -/
theorem clearLines_breaks_spawn :
    floatGrid.WellSized ∧
    isValidMove floatGrid (createTetromino .T) = some true ∧
    (clearLines floatGrid).1 = emptyRow :: towerRow :: List.replicate 18 emptyRow ∧
    isValidMove (clearLines floatGrid).1 (createTetromino .T) = some false := by
  have h : (clearLines floatGrid).1 = emptyRow :: towerRow :: List.replicate 18 emptyRow := by
    rw [clearLines_eq]; decide
  refine ⟨by decide, by decide, h, ?_⟩
  rw [h]
  decide

/-- C17 (amended): for a grid of `GRID_HEIGHT` rows and a catalog piece at its spawn position that
is a valid placement against the grid right after the lock, the piece is still a valid placement
against the grid after `clearLines`, provided that the number of full rows is not exactly one or
that row 0 of the grid right after the lock holds no color in the columns where the second row of
the shape has an occupied cell. -/
theorem clearLines_keeps_spawn (g : Grid) (type : PieceType) (hlen : g.length = GRID_HEIGHT)
    (hv : isValidMove g (createTetromino type) = some true)
    (hside : (clearLines g).2 ≠ 1 ∨ RowZeroClear g (createTetromino type)) :
    isValidMove (clearLines g).1 (createTetromino type) = some true := by
  have hy : 0 ≤ (createTetromino type).y := le_refl _
  have hrows : (createTetromino type).shape.length ≤ 2 := by cases type <;> decide
  unfold isValidMove
  refine (everyIdx_eq_some_true _ _ _).2 fun k hk => (everyIdx_eq_some_true _ _ _).2 fun j hj => ?_
  rw [cellValid_of_nonneg _ _ (cleared_length g hlen) hy]
  simp only [Nat.zero_add, Option.some.injEq, decide_eq_true_eq]
  intro hcell
  obtain ⟨a, b, c, d⟩ := valid_cell g _ hv k hk j hj hcell
  refine ⟨a, b, c, ?_⟩
  have hyk : ((createTetromino type).y + (k : Int)).toNat = k := by
    simp [createTetromino]
  have hkH : k < GRID_HEIGHT := by
    have : (2 : Nat) < GRID_HEIGHT := by decide
    omega
  have h0 : 0 ≤ (createTetromino type).y + (k : Int) := by
    have hspawn : (createTetromino type).y = 0 := rfl
    have := Int.natCast_nonneg k
    omega
  rw [free_eq_emptyAt g _ _ h0 (by rw [hyk, hlen]; exact hkH)] at d
  rw [hyk] at d ⊢
  obtain ⟨hfresh, hold⟩ := cleared_emptyAt g hlen k ((createTetromino type).x + (j : Int)).toNat hkH
  by_cases hlt : k < (clearLines g).2
  · exact hfresh hlt
  · obtain ⟨i, h1, h2, h3⟩ := hold (by omega)
    rw [h3]
    by_cases hi : i = k
    · subst hi
      simpa using d
    · have hcase : k = 1 ∧ i = 0 ∧ (clearLines g).2 = 1 := by omega
      obtain ⟨hk1, hi0, hone⟩ := hcase
      rcases hside with h | h
      · exact absurd hone h
      · rw [hi0]
        exact h ⟨k, hk⟩ ⟨j, hj⟩ hk1 hcell

/-- The T piece on the sample grid (two full rows) and on `gapGrid` after the lock of the lying I
piece (one full row, row 0 empty). -/
theorem clearLines_keeps_spawn_sample :
    isValidMove (clearLines sampleGrid).1 (createTetromino .T) = some true ∧
    isValidMove (clearLines (placePiece gapGrid lyingI).1).1 (createTetromino .T) = some true := by
  refine ⟨clearLines_keeps_spawn sampleGrid .T (by decide) (by decide) (Or.inl ?_),
    clearLines_keeps_spawn (placePiece gapGrid lyingI).1 .T (by decide) (by decide)
      (Or.inr (by decide))⟩
  rw [clearLines_eq]
  decide

/-! ## Invariants of the reachable states -/

theorem countP_set_le {α : Type} (q : α → Bool) (a : α) :
    ∀ (l : List α) (i : Nat), (l.set i a).countP q ≤ l.countP q + 1 := by
  intro l
  induction l with
  | nil => intro i; simp
  | cons b t ih =>
    intro i
    cases i with
    | zero =>
      simp only [List.set_cons_zero, List.countP_cons]
      split_ifs <;> omega
    | succ i =>
      simp only [List.set_cons_succ, List.countP_cons]
      have := ih i
      omega

theorem write_count (g g1 : Grid) (y x : Int) (c : Color) (h : g.write y x c = some g1) :
    g1.length = g.length ∧ g1.countP rowFull ≤ g.countP rowFull + 1 := by
  unfold Grid.write at h
  split_ifs at h
  simp only [List.get?_eq_getElem?] at h
  cases hrow : g[y.toNat]? with
  | none => simp [hrow] at h
  | some row =>
    simp only [hrow, Option.some.injEq] at h
    subst h
    exact ⟨by simp, countP_set_le _ _ _ _⟩

theorem placeRow_count (c : Color) (px py : Int) (dy : Nat) (cells : List ShapeCell) :
    ∀ (dx : Nat) (g : Grid),
      (placeRow c px py dy cells dx g).1.length = g.length ∧
      (placeRow c px py dy cells dx g).1.countP rowFull ≤
        g.countP rowFull + cells.countP ShapeCell.truthy := by
  induction cells with
  | nil => intro dx g; simp [placeRow]
  | cons cell rest ih =>
    intro dx g
    rw [placeRow]
    cases ht : cell.truthy with
    | false =>
      simp only [Bool.false_eq_true, if_false, List.countP_cons, ht]
      have := ih (dx + 1) g
      omega
    | true =>
      simp only [if_true, List.countP_cons, ht]
      cases hw : g.write (py + dy) (px + dx) c with
      | none => simp
      | some g1 =>
        obtain ⟨h1, h2⟩ := write_count g g1 _ _ c hw
        have := ih (dx + 1) g1
        simp only
        omega

theorem placeRows_count (c : Color) (px py : Int) (rows : List (List ShapeCell)) :
    ∀ (dy : Nat) (g : Grid),
      (placeRows c px py rows dy g).1.length = g.length ∧
      (placeRows c px py rows dy g).1.countP rowFull ≤ g.countP rowFull + truthyCount rows := by
  induction rows with
  | nil => intro dy g; simp [placeRows, truthyCount]
  | cons row rest ih =>
    intro dy g
    rw [placeRows]
    have h1 := placeRow_count c px py dy row 0 g
    rcases hrow : placeRow c px py dy row 0 g with ⟨g1, ok⟩
    rw [hrow] at h1
    simp only at h1
    have hsum : truthyCount (row :: rest) = row.countP ShapeCell.truthy + truthyCount rest := by
      simp [truthyCount]
    cases ok with
    | false =>
      simp only
      omega
    | true =>
      have h2 := ih (dy + 1) g1
      simp only
      omega

theorem catalog_truthy : ∀ s ∈ catalogRotations, truthyCount s ≤ 4 := by
  decide

theorem hardDrop_lowered (g : Grid) (fuel : Nat) :
    ∀ p : Piece, ∃ n, hardDrop g fuel p = .landed (p.lowered n) ∨
      hardDrop g fuel p = .threw (p.lowered n) ∨ hardDrop g fuel p = .running (p.lowered n) := by
  induction fuel with
  | zero => intro p; exact ⟨0, Or.inr (Or.inr (by rw [hardDrop, lowered_zero]))⟩
  | succ fuel ih =>
    intro p
    rw [hardDrop]
    cases hv : isValidMove g { p with y := p.y + 1 } with
    | none => exact ⟨0, Or.inr (Or.inl (by rw [lowered_zero]))⟩
    | some b =>
      cases b
      · exact ⟨0, Or.inl (by rw [lowered_zero])⟩
      · obtain ⟨n, hn⟩ := ih { p with y := p.y + 1 }
        rw [lowered_succ] at hn
        exact ⟨n + 1, hn⟩

theorem invariant_init (activeType nextType : PieceType) :
    Invariant (initialState activeType nextType) where
  rows := emptyGrid_length
  noFull := by
    intro row hrow
    have : row = emptyRow := List.eq_of_mem_replicate hrow
    rw [this]
    decide
  activeShape := catalog_mem activeType
  nextShape := catalog_mem nextType
  activeRow := le_refl _
  nextRow := le_refl _
  levelOf := by simp [initialState]

theorem invariant_setActive (s : State) (hinv : Invariant s) (q : Piece)
    (hshape : q.shape ∈ catalogRotations) (hy : 0 ≤ q.y) :
    Invariant { s with activePiece := q } where
  rows := hinv.rows
  noFull := hinv.noFull
  activeShape := hshape
  nextShape := hinv.nextShape
  activeRow := hy
  nextRow := hinv.nextRow
  levelOf := hinv.levelOf

theorem invariant_move (s : State) (hinv : Invariant s) (dx dy : Int) (hdy : 0 ≤ dy) :
    Invariant (setActive s (moveTetromino s.grid s.activePiece dx dy)).state := by
  simp only [moveTetromino]
  cases isValidMove s.grid
      { s.activePiece with x := s.activePiece.x + dx, y := s.activePiece.y + dy } with
  | none => exact hinv
  | some b =>
    cases b
    · exact invariant_setActive s hinv _ hinv.activeShape hinv.activeRow
    · refine invariant_setActive s hinv _ hinv.activeShape ?_
      have := hinv.activeRow
      simp only
      omega

theorem invariant_key (s : State) (hinv : Invariant s) (fuel : Nat) (k : Key) (e : Exit)
    (h : keydown fuel s k = some e) : Invariant e.state := by
  unfold keydown at h
  split_ifs at h
  · cases h; exact hinv
  · cases k with
    | rotate =>
      simp only [Option.some.injEq] at h
      subst h
      obtain ⟨t, ht, hmem⟩ := catalog_closed _ hinv.activeShape
      simp only [rotateTetromino, ht, Option.map_some', setActive]
      exact invariant_setActive s hinv _ hmem hinv.activeRow
    | down =>
      simp only [Option.some.injEq] at h
      subst h
      exact invariant_move s hinv 0 1 (by decide)
    | left =>
      simp only [Option.some.injEq] at h
      subst h
      exact invariant_move s hinv (-1) 0 (by decide)
    | right =>
      simp only [Option.some.injEq] at h
      subst h
      exact invariant_move s hinv 1 0 (by decide)
    | space =>
      obtain ⟨n, hn | hn | hn⟩ := hardDrop_lowered s.grid fuel s.activePiece
      all_goals rw [hn] at h
      · simp only [Option.some.injEq] at h
        subst h
        refine invariant_setActive s hinv _ hinv.activeShape ?_
        have := hinv.activeRow
        have := Int.natCast_nonneg n
        simp only [Piece.lowered]
        omega
      · simp only [Option.some.injEq] at h
        subst h
        refine invariant_setActive s hinv _ hinv.activeShape ?_
        have := hinv.activeRow
        have := Int.natCast_nonneg n
        simp only [Piece.lowered]
        omega
      · cases h
    | hold => cases h; exact hinv
    | other => cases h; exact hinv

theorem cleared_noFull (g : Grid) : ∀ row ∈ (clearLines g).1, rowFull row = false := by
  intro row hrow
  rw [clearLines_eq] at hrow
  simp only [List.mem_append, List.mem_filter, Bool.not_eq_true'] at hrow
  rcases hrow with h | h
  · have : row = emptyRow := List.eq_of_mem_replicate h
    rw [this]
    decide
  · exact h.2

theorem locked_count (s : State) (hinv : Invariant s) :
    (placePiece s.grid s.activePiece).1.length = GRID_HEIGHT ∧
    (clearLines (placePiece s.grid s.activePiece).1).2 ≤ 4 := by
  obtain ⟨h1, h2⟩ := placeRows_count s.activePiece.color s.activePiece.x s.activePiece.y
    s.activePiece.shape 0 s.grid
  have h3 := catalog_truthy _ hinv.activeShape
  have h4 : s.grid.countP rowFull = 0 := by
    rw [List.countP_eq_zero]
    intro row hrow
    simp [hinv.noFull row hrow]
  refine ⟨h1.trans hinv.rows, ?_⟩
  rw [clearLines_eq]
  unfold placePiece
  omega

theorem level_step (lines level k : Nat) (hk : k ≤ 4) (hsmall : roundNat (lines + k) < 2 ^ 53)
    (hinv : lines < 2 ^ 53 → level * 10 ≤ lines ∧ lines < (level + 1) * 10) :
    roundNat (lines + k) = lines + k ∧
    (if roundNat (lines + k) ≥ roundNat (roundNat (level + 1) * 10) then roundNat (level + 1)
      else level) = (lines + k) / 10 := by
  have h1 : lines + k < 2 ^ 53 := lt_of_roundNat_lt _ hsmall
  obtain ⟨hlow, hhigh⟩ := hinv (by omega)
  have e1 : roundNat (lines + k) = lines + k := roundNat_of_lt _ h1
  have e2 : roundNat (level + 1) = level + 1 := roundNat_of_lt _ (by omega)
  have e3 : roundNat ((level + 1) * 10) = (level + 1) * 10 :=
    roundNat_even _ (by omega) (by omega)
  rw [e1, e2, e3]
  refine ⟨rfl, ?_⟩
  split_ifs <;> omega

theorem invariant_cleared (s : State) (hinv : Invariant s) (time : ℚ) (randomType : PieceType)
    (valid : Bool) :
    Invariant (clearAndScore
      (afterLock s (placePiece s.grid s.activePiece).1 randomType valid) time) ∧
    (s.linesCleared + 4 < 2 ^ 53 →
      (clearAndScore (afterLock s (placePiece s.grid s.activePiece).1 randomType valid)
        time).linesCleared ≤ s.linesCleared + 4 ∧
      (clearAndScore (afterLock s (placePiece s.grid s.activePiece).1 randomType valid)
        time).level ≤ s.level + 1) := by
  obtain ⟨hlen, hk⟩ := locked_count s hinv
  obtain ⟨hgrid, -, hlines, hlevel, -, -, -, hactive, hnext⟩ :=
    clearAndScore_fields (afterLock s (placePiece s.grid s.activePiece).1 randomType valid) time
  have hg : (afterLock s (placePiece s.grid s.activePiece).1 randomType valid).grid =
      (placePiece s.grid s.activePiece).1 := rfl
  have hl : (afterLock s (placePiece s.grid s.activePiece).1 randomType valid).linesCleared =
      s.linesCleared := rfl
  have hv : (afterLock s (placePiece s.grid s.activePiece).1 randomType valid).level =
      s.level := rfl
  rw [hg] at hgrid hlines hlevel
  rw [hl] at hlines hlevel
  rw [hv] at hlevel
  refine ⟨⟨?_, ?_, ?_, ?_, ?_, ?_, ?_⟩, fun hsmall => ?_⟩
  · rw [hgrid]; exact cleared_length _ hlen
  · rw [hgrid]; exact cleared_noFull _
  · rw [hactive]; exact hinv.nextShape
  · rw [hnext]; exact catalog_mem randomType
  · rw [hactive]; exact hinv.nextRow
  · rw [hnext]; exact le_refl _
  · intro hsmall
    rw [hlines] at hsmall
    obtain ⟨e1, e2⟩ := level_step s.linesCleared s.level _ hk hsmall hinv.levelOf
    rw [hlevel, hlines, e2, e1]
    omega
  · have hsmall2 : roundNat (s.linesCleared + (clearLines (placePiece s.grid s.activePiece).1).2)
        < 2 ^ 53 := by
      rw [roundNat_of_lt _ (by omega)]
      omega
    obtain ⟨e1, e2⟩ := level_step s.linesCleared s.level _ hk hsmall2 hinv.levelOf
    obtain ⟨hlow, hhigh⟩ := hinv.levelOf (by omega)
    rw [hlevel, hlines, e2, e1]
    omega

theorem invariant_tick (s : State) (hinv : Invariant s) (time : ℚ) (randomType : PieceType) :
    ((update s time randomType).threw = false → Invariant (update s time randomType).state) ∧
    (s.linesCleared + 4 < 2 ^ 53 →
      (update s time randomType).state.linesCleared ≤ s.linesCleared + 4 ∧
      (update s time randomType).state.level ≤ s.level + 1) := by
  unfold update
  by_cases hover : s.isGameOver = true
  · rw [if_pos hover]
    exact ⟨fun _ => hinv, fun _ => by simp⟩
  rw [if_neg hover]
  by_cases hdrop : time - s.lastDropTime > s.dropInterval
  swap
  · rw [if_neg hdrop]
    exact ⟨fun _ => hinv, fun _ => by simp⟩
  rw [if_pos hdrop, moveTetromino_down]
  cases hmove : isValidMove s.grid { s.activePiece with y := s.activePiece.y + 1 } with
  | none => exact ⟨fun h => absurd h (by simp), fun _ => by simp⟩
  | some b =>
    cases b
    · simp only [if_true]
      rcases hplace : placePiece s.grid s.activePiece with ⟨g1, ok⟩
      have hg1 : g1 = (placePiece s.grid s.activePiece).1 := by rw [hplace]
      cases ok
      · exact ⟨fun h => absurd h (by simp), fun _ => by simp⟩
      · simp only
        cases hnext : isValidMove g1 s.nextPiece with
        | none => exact ⟨fun h => absurd h (by simp), fun _ => by simp⟩
        | some valid =>
          simp only
          have := invariant_cleared s hinv time randomType valid
          rw [← hg1] at this
          exact ⟨fun _ => this.1, this.2⟩
    · simp only [moved_ne, if_false]
      refine ⟨fun _ => ?_, fun _ => by simp⟩
      have hact : Invariant { s with activePiece := { s.activePiece with y := s.activePiece.y + 1 } } :=
        invariant_setActive s hinv _ hinv.activeShape (by
          have := hinv.activeRow
          simp only
          omega)
      exact ⟨hact.rows, hact.noFull, hact.activeShape, hact.nextShape, hact.activeRow,
        hact.nextRow, hact.levelOf⟩

theorem reachable_invariant (s : State) (h : Reachable s) : Invariant s := by
  induction h with
  | init activeType nextType => exact invariant_init activeType nextType
  | tick time randomType _ hok ih => exact (invariant_tick _ ih time randomType).1 hok
  | key fuel k e _ hkey ih => exact invariant_key _ ih fuel k e hkey

/-! ## Hard drop on a grid that is one row short -/

theorem hardDrop_more_fuel (g : Grid) (m : Nat) :
    ∀ (fuel : Nat) (p : Piece), (∀ q, hardDrop g fuel p ≠ .running q) →
      hardDrop g (fuel + m) p = hardDrop g fuel p := by
  intro fuel
  induction fuel with
  | zero =>
    intro p h
    exact absurd rfl (h p)
  | succ fuel ih =>
    intro p h
    rw [Nat.add_right_comm, hardDrop, hardDrop]
    rw [hardDrop] at h
    cases hv : isValidMove g { p with y := p.y + 1 } with
    | none => rfl
    | some b =>
      cases b
      · rfl
      · simp only [hv] at h
        exact ih _ h

/-- C12, as stated for every grid, fails on a grid with fewer than `GRID_HEIGHT` rows: on 19 empty
rows the O piece from the spawn position passes rows 1 to 17, and the check of row 18 reads
`grid[19][4]`, which throws; `hardDrop` returns no piece, whatever the number of iterations. -/
theorem hardDrop_short_grid :
    (createTetromino .O).shape.Occupied ∧ 0 ≤ (createTetromino .O).y ∧
    hardDrop shortGrid 18 (createTetromino .O) = .threw { createTetromino .O with y := 17 } ∧
    ∀ fuel q, hardDrop shortGrid fuel (createTetromino .O) ≠ .landed q := by
  have h18 : hardDrop shortGrid 18 (createTetromino .O) =
      .threw { createTetromino .O with y := 17 } := by decide
  refine ⟨by decide, by decide, h18, fun fuel q hland => ?_⟩
  have h1 := hardDrop_more_fuel shortGrid 18 fuel (createTetromino .O) (by
    intro q' hq'
    rw [hland] at hq'
    cases hq')
  have h2 := hardDrop_more_fuel shortGrid fuel 18 (createTetromino .O) (by
    intro q' hq'
    rw [h18] at hq'
    cases hq')
  rw [Nat.add_comm, h2, h18, hland] at h1
  cases h1

/-! ## States after the frame loop has stopped -/

theorem settled_of_invariant (s : State) (hinv : Invariant s) : Settled s :=
  ⟨hinv.rows, hinv.activeShape, hinv.nextShape, hinv.activeRow, hinv.nextRow, hinv.levelOf⟩

theorem settled_setActive (s : State) (hs : Settled s) (q : Piece)
    (hshape : q.shape ∈ catalogRotations) (hy : 0 ≤ q.y) :
    Settled { s with activePiece := q } :=
  ⟨hs.rows, hshape, hs.nextShape, hy, hs.nextRow, hs.levelOf⟩

theorem settled_move (s : State) (hs : Settled s) (dx dy : Int) (hdy : 0 ≤ dy) :
    Settled (setActive s (moveTetromino s.grid s.activePiece dx dy)).state := by
  simp only [moveTetromino]
  cases isValidMove s.grid
      { s.activePiece with x := s.activePiece.x + dx, y := s.activePiece.y + dy } with
  | none => exact hs
  | some b =>
    cases b
    · exact settled_setActive s hs _ hs.activeShape hs.activeRow
    · refine settled_setActive s hs _ hs.activeShape ?_
      have := hs.activeRow
      simp only
      omega

theorem settled_key (s : State) (hs : Settled s) (fuel : Nat) (k : Key) (e : Exit)
    (h : keydown fuel s k = some e) : Settled e.state := by
  unfold keydown at h
  split_ifs at h
  · cases h; exact hs
  · cases k with
    | rotate =>
      simp only [Option.some.injEq] at h
      subst h
      obtain ⟨t, ht, hmem⟩ := catalog_closed _ hs.activeShape
      simp only [rotateTetromino, ht, Option.map_some', setActive]
      exact settled_setActive s hs _ hmem hs.activeRow
    | down =>
      simp only [Option.some.injEq] at h
      subst h
      exact settled_move s hs 0 1 (by decide)
    | left =>
      simp only [Option.some.injEq] at h
      subst h
      exact settled_move s hs (-1) 0 (by decide)
    | right =>
      simp only [Option.some.injEq] at h
      subst h
      exact settled_move s hs 1 0 (by decide)
    | space =>
      obtain ⟨n, hn | hn | hn⟩ := hardDrop_lowered s.grid fuel s.activePiece
      all_goals rw [hn] at h
      · simp only [Option.some.injEq] at h
        subst h
        refine settled_setActive s hs _ hs.activeShape ?_
        have := hs.activeRow
        have := Int.natCast_nonneg n
        simp only [Piece.lowered]
        omega
      · simp only [Option.some.injEq] at h
        subst h
        refine settled_setActive s hs _ hs.activeShape ?_
        have := hs.activeRow
        have := Int.natCast_nonneg n
        simp only [Piece.lowered]
        omega
      · cases h
    | hold => cases h; exact hs
    | other => cases h; exact hs

theorem settled_threw (s : State) (hinv : Invariant s) (time : ℚ) (randomType : PieceType)
    (hthrew : (update s time randomType).threw = true) :
    Settled (update s time randomType).state := by
  have hs := settled_of_invariant s hinv
  have hlen := (locked_count s hinv).1
  unfold update at hthrew ⊢
  by_cases hover : s.isGameOver = true
  · rw [if_pos hover]; exact hs
  rw [if_neg hover] at hthrew ⊢
  by_cases hdrop : time - s.lastDropTime > s.dropInterval
  swap
  · rw [if_neg hdrop]; exact hs
  rw [if_pos hdrop, moveTetromino_down] at hthrew ⊢
  cases hmove : isValidMove s.grid { s.activePiece with y := s.activePiece.y + 1 } with
  | none => exact hs
  | some b =>
    rw [hmove] at hthrew
    cases b
    · simp only [if_true] at hthrew ⊢
      rcases hplace : placePiece s.grid s.activePiece with ⟨g1, ok⟩
      rw [hplace] at hthrew hlen
      simp only at hlen
      cases ok
      · exact ⟨hlen, hs.activeShape, hs.nextShape, hs.activeRow, hs.nextRow, hs.levelOf⟩
      · simp only at hthrew ⊢
        cases hnext : isValidMove g1 s.nextPiece with
        | none =>
          exact ⟨hlen, hs.nextShape, catalog_mem randomType, hs.nextRow, le_refl _, hs.levelOf⟩
        | some valid =>
          rw [hnext] at hthrew
          simp at hthrew
    · simp [moved_ne] at hthrew

theorem halted_settled (s : State) (h : Halted s) : Settled s := by
  induction h with
  | threw time randomType hreach hthrew =>
    exact settled_threw _ (reachable_invariant _ hreach) time randomType hthrew
  | key fuel k e _ hkey ih => exact settled_key _ ih fuel k e hkey

theorem halted_sunken : Halted (update (openingWith sunkenI) 1001 .T).state := by
  refine Halted.threw 1001 .T reachable_sunken ?_
  rw [update_lock_throws (openingWith sunkenI) 1001 .T (placePiece emptyGrid sunkenI).1 rfl
    (by norm_num [openingWith, initialState]) (by decide) (by decide)]

/-! ## A session that clears lines for ever -/

theorem keydown_keyPiece (fuel : Nat) (s : State) (k : Key) (q : Piece)
    (hrun : s.isGameOver = false) (h : keyPiece fuel s.grid s.activePiece k = some q) :
    keydown fuel s k = some ⟨{ s with activePiece := q }, false⟩ := by
  unfold keydown
  rw [if_neg (by simp [hrun])]
  cases k <;> simp only [keyPiece] at h ⊢
  · rw [h]; rfl
  · rw [h]; rfl
  · rw [h]; rfl
  · rw [h]; rfl
  · cases hd : hardDrop s.grid fuel s.activePiece with
    | landed piece =>
      rw [hd] at h
      simp only [Option.some.injEq] at h
      rw [h]
    | threw piece => rw [hd] at h; cases h
    | running piece => rw [hd] at h; cases h
  · simp only [Option.some.injEq] at h
    rw [← h]
  · simp only [Option.some.injEq] at h
    rw [← h]

theorem reachable_steer (fuel : Nat) (ks : List Key) :
    ∀ (s : State) (q : Piece), Reachable s → s.isGameOver = false →
      steer fuel s.grid s.activePiece ks = some q → Reachable { s with activePiece := q } := by
  induction ks with
  | nil =>
    intro s q hreach _ h
    simp only [steer, Option.some.injEq] at h
    rw [← h]
    exact hreach
  | cons k ks ih =>
    intro s q hreach hrun h
    simp only [steer] at h
    cases hk : keyPiece fuel s.grid s.activePiece k with
    | none => rw [hk] at h; cases h
    | some p =>
      rw [hk] at h
      have hstep := Reachable.key fuel k _ hreach (keydown_keyPiece fuel s k p hrun hk)
      exact ih { s with activePiece := p } q hstep hrun h

theorem column_steer (c : Nat) (hc : c < 10) :
    steer 20 (stackGrid c) (createTetromino .I) (columnKeys c) = some (landedI c) := by
  interval_cases c <;> decide

theorem column_rest (c : Nat) (hc : c < 10) :
    moveTetromino (stackGrid c) (landedI c) 0 1 = some (landedI c) := by
  interval_cases c <;> decide

theorem column_place (c : Nat) (hc : c < 10) :
    (placePiece (stackGrid c) (landedI c)).2 = true := by
  interval_cases c <;> decide

theorem column_spawn (c : Nat) (hc : c < 10) :
    isValidMove (placePiece (stackGrid c) (landedI c)).1 (createTetromino .I) = some true := by
  interval_cases c <;> decide

theorem column_clear (c : Nat) (hc : c < 10) :
    clearLines (placePiece (stackGrid c) (landedI c)).1 =
      (stackGrid ((c + 1) % 10), if c = 9 then 4 else 0) := by
  rw [clearLines_eq]
  interval_cases c <;> decide

theorem column_step (c : Nat) (hc : c < 10) (s : State) (hreach : Reachable s)
    (hcol : AtColumn c s) :
    ∃ t, Reachable t ∧ AtColumn ((c + 1) % 10) t ∧
      t.linesCleared = roundNat (s.linesCleared + (if c = 9 then 4 else 0)) ∧
      t.level =
        (if roundNat (s.linesCleared + (if c = 9 then 4 else 0)) ≥
            roundNat (roundNat (s.level + 1) * 10)
          then roundNat (s.level + 1) else s.level) := by
  obtain ⟨hgrid, hact, hnext, hrun⟩ := hcol
  have h1 : Reachable { s with activePiece := landedI c } :=
    reachable_steer 20 (columnKeys c) s _ hreach hrun (by
      rw [hgrid, hact]
      exact column_steer c hc)
  have hplace : placePiece s.grid (landedI c) = ((placePiece (stackGrid c) (landedI c)).1, true) := by
    rw [hgrid]
    exact Prod.ext rfl (column_place c hc)
  have hupd := update_lock { s with activePiece := landedI c }
    (s.lastDropTime + s.dropInterval + 1) .I (placePiece (stackGrid c) (landedI c)).1 true hrun
    (by simp only; linarith)
    (by simp only; rw [hgrid]; exact column_rest c hc)
    hplace
    (by simp only; rw [hnext]; exact column_spawn c hc)
  have h2 := Reachable.tick (s.lastDropTime + s.dropInterval + 1) .I h1 (by rw [hupd])
  rw [hupd] at h2
  obtain ⟨fgrid, -, flines, flevel, -, -, fover, factive, fnext⟩ :=
    clearAndScore_fields (afterLock { s with activePiece := landedI c }
      (placePiece (stackGrid c) (landedI c)).1 .I true) (s.lastDropTime + s.dropInterval + 1)
  have hg : (afterLock { s with activePiece := landedI c }
      (placePiece (stackGrid c) (landedI c)).1 .I true).grid =
      (placePiece (stackGrid c) (landedI c)).1 := rfl
  rw [hg, column_clear c hc] at fgrid flines flevel
  refine ⟨_, h2, ⟨fgrid, ?_, ?_, ?_⟩, flines, flevel⟩
  · rw [factive]; exact hnext
  · rw [fnext]; rfl
  · rw [fover]; exact hrun

theorem roundNat_tie_up : roundNat 18014398509481990 = 18014398509481992 := by
  have h : Nat.log2 18014398509481990 = 54 := log2_eq _ 54 (by norm_num) (by norm_num)
  simp only [roundNat, h]
  norm_num

theorem roundNat_tie_down : roundNat 18014398509482010 = 18014398509482008 := by
  have h : Nat.log2 18014398509482010 = 54 := log2_eq _ 54 (by norm_num) (by norm_num)
  simp only [roundNat, h]
  norm_num

theorem threshold_cases (lines level : Nat) (hlevel : level = lines / 10)
    (hle : lines ≤ 18014398509482004) :
    roundNat (roundNat (level + 1) * 10) = (level + 1) * 10 ∨
    (level = 1801439850948198 ∧
      roundNat (roundNat (level + 1) * 10) = 18014398509481992) ∨
    (level = 1801439850948200 ∧
      roundNat (roundNat (level + 1) * 10) = 18014398509482008) := by
  have e2 : roundNat (level + 1) = level + 1 := roundNat_of_lt _ (by omega)
  rw [e2]
  by_cases hT : (level + 1) * 10 < 2 ^ 54
  · exact Or.inl (roundNat_even _ hT (by omega))
  · have hcase : level = 1801439850948198 ∨ level = 1801439850948199 ∨
        level = 1801439850948200 := by omega
    rcases hcase with h | h | h
    · exact Or.inr (Or.inl ⟨h, by rw [h]; exact roundNat_tie_up⟩)
    · refine Or.inl ?_
      rw [h]
      exact roundNat_four _ (by norm_num) (by norm_num)
    · exact Or.inr (Or.inr ⟨h, by rw [h]; exact roundNat_tie_down⟩)

theorem counters_hold (lines level : Nat) (h4 : 4 ∣ lines) (hlevel : level = lines / 10)
    (hle : lines ≤ 18014398509482004) :
    roundNat (lines + 0) = lines ∧
    (if roundNat (lines + 0) ≥ roundNat (roundNat (level + 1) * 10) then roundNat (level + 1)
      else level) = level := by
  have e1 : roundNat (lines + 0) = lines := roundNat_four lines (by omega) h4
  rw [e1]
  refine ⟨rfl, if_neg ?_⟩
  rcases threshold_cases lines level hlevel hle with h | ⟨h1, h2⟩ | ⟨h1, h2⟩
  · rw [h]; omega
  · rw [h2]; omega
  · rw [h2]; omega

theorem counters_clear (lines level : Nat) (h4 : 4 ∣ lines) (hlevel : level = lines / 10)
    (hle : lines + 4 ≤ 18014398509482004) :
    roundNat (lines + 4) = lines + 4 ∧
    (if roundNat (lines + 4) ≥ roundNat (roundNat (level + 1) * 10) then roundNat (level + 1)
      else level) = (lines + 4) / 10 := by
  have e1 : roundNat (lines + 4) = lines + 4 :=
    roundNat_four _ (by omega) ((Nat.dvd_add_right h4).2 (dvd_refl 4))
  have e2 : roundNat (level + 1) = level + 1 := roundNat_of_lt _ (by omega)
  rw [e1]
  refine ⟨rfl, ?_⟩
  rcases threshold_cases lines level hlevel (by omega) with h | ⟨h1, h2⟩ | ⟨h1, h2⟩
  · rw [h, e2]; split_ifs <;> omega
  · rw [h2, e2]; split_ifs <;> omega
  · rw [h2, e2]; split_ifs <;> omega

theorem column_run (m : Nat) (hm : 4 * m ≤ 18014398509482004) (s0 : State)
    (hreach : Reachable s0) (hcol : AtColumn 0 s0) (hl : s0.linesCleared = 4 * m)
    (hv : s0.level = 4 * m / 10) (c : Nat) (hc : c ≤ 9) :
    ∃ s, Reachable s ∧ AtColumn c s ∧ s.linesCleared = 4 * m ∧ s.level = 4 * m / 10 := by
  induction c with
  | zero => exact ⟨s0, hreach, hcol, hl, hv⟩
  | succ c ih =>
    obtain ⟨s, hs, hcs, hls, hvs⟩ := ih (by omega)
    obtain ⟨t, ht, hct, hlt, hvt⟩ := column_step c (by omega) s hs hcs
    have hmod : (c + 1) % 10 = c + 1 := Nat.mod_eq_of_lt (by omega)
    have hk : (if c = 9 then 4 else 0) = 0 := if_neg (by omega)
    rw [hmod] at hct
    rw [hk] at hlt hvt
    obtain ⟨e1, e2⟩ := counters_hold s.linesCleared s.level (by rw [hls]; exact Dvd.intro _ rfl)
      (by rw [hvs, hls]) (by omega)
    rw [e1] at hlt
    rw [e2] at hvt
    exact ⟨t, ht, hct, hlt.trans hls, hvt.trans hvs⟩

theorem cycle_reachable (m : Nat) (hm : 4 * m ≤ 18014398509482004) :
    ∃ s, Reachable s ∧ AtColumn 0 s ∧ s.linesCleared = 4 * m ∧ s.level = 4 * m / 10 := by
  induction m with
  | zero =>
    exact ⟨initialState .I .I, Reachable.init .I .I, ⟨by decide, rfl, rfl, rfl⟩, rfl, rfl⟩
  | succ m ih =>
    obtain ⟨s0, h0, hc0, hl0, hv0⟩ := ih (by omega)
    obtain ⟨s, hs, hcs, hls, hvs⟩ := column_run m (by omega) s0 h0 hc0 hl0 hv0 9 (le_refl _)
    obtain ⟨t, ht, hct, hlt, hvt⟩ := column_step 9 (by decide) s hs hcs
    have hk : (if 9 = 9 then 4 else 0) = 4 := if_pos rfl
    rw [hk] at hlt hvt
    obtain ⟨e1, e2⟩ := counters_clear s.linesCleared s.level (by rw [hls]; exact Dvd.intro _ rfl)
      (by rw [hvs, hls]) (by omega)
    rw [e1] at hlt
    rw [e2] at hvt
    refine ⟨t, ht, hct, ?_, ?_⟩
    · rw [hlt, hls]; ring
    · rw [hvt, hls]
      congr 1

/-- C18, as stated for every reachable state, fails once the counters leave the range in which
doubles are exact. Let every piece drawn be the I piece and play it for ever: rotate it upright,
shift it to column 0, hard drop, and let a Tick that comes more than the drop interval after the
last drop lock it; then the same in columns 1 to 9. The tenth lock completes the four bottom rows,
the Tick clears them and the grid is empty again. Each such round adds 4 to `linesCleared`. After
4503599627370501 rounds `linesCleared` is 18014398509482004 and the level 1801439850948200. In the
next round the threshold `(level + 1) * 10` is 18014398509482010, which is not a double (the
doubles from `2 ^ 54` to `2 ^ 55` are the multiples of 4) and is stored as 18014398509482008; the
tenth lock makes `linesCleared` 18014398509482008, the test `linesCleared >= (level + 1) * 10`
holds and the level becomes 1801439850948201, although `linesCleared / 10` is 1801439850948200
and `level * 10` exceeds `linesCleared`. The session is running, on the empty grid. -/
theorem reachable_level_breaks :
    ∃ s, Reachable s ∧ s.grid = emptyGrid ∧ s.isGameOver = false ∧
      s.linesCleared = 18014398509482008 ∧ s.level = 1801439850948201 ∧
      s.level ≠ s.linesCleared / 10 ∧ ¬ s.level * 10 ≤ s.linesCleared := by
  obtain ⟨s0, h0, hc0, hl0, hv0⟩ := cycle_reachable 4503599627370501 (by norm_num)
  obtain ⟨s, hs, hcs, hls, hvs⟩ :=
    column_run 4503599627370501 (by norm_num) s0 h0 hc0 hl0 hv0 9 (le_refl _)
  obtain ⟨t, ht, hct, hlt, hvt⟩ := column_step 9 (by decide) s hs hcs
  have hk : (if 9 = 9 then 4 else 0) = 4 := if_pos rfl
  have hlines : s.linesCleared = 18014398509482004 := by rw [hls]
  have hlevel : s.level = 1801439850948200 := by rw [hvs]
  have e1 : roundNat (18014398509482004 + 4) = 18014398509482008 :=
    roundNat_four _ (by norm_num) (by norm_num)
  have e2 : roundNat (1801439850948200 + 1) = 1801439850948201 :=
    roundNat_of_lt _ (by norm_num)
  have e3 : roundNat (1801439850948201 * 10) = 18014398509482008 := roundNat_tie_down
  rw [hk, hlines, e1] at hlt hvt
  rw [hlevel, e2, e3, if_pos (le_refl _)] at hvt
  refine ⟨t, ht, hct.1.trans (by decide), hct.2.2.2, hlt, hvt, ?_, ?_⟩
  · rw [hlt, hvt]; norm_num
  · rw [hlt, hvt]; norm_num

/-! ## Level and anchor rows in every state -/

theorem reachable_after_overhang :
    Reachable (update (openingWith overhangingI) 1001 .T).state :=
  Reachable.tick 1001 .T reachable_overhanging (by rw [overhanging_locked])

theorem after_overhang_lines :
    (update (openingWith overhangingI) 1001 .T).state.linesCleared < 2 ^ 53 := by
  rw [overhanging_locked]
  have h := (clearAndScore_fields (afterLock (openingWith overhangingI)
    (placePiece emptyGrid overhangingI).1 .T true) 1001).2.2.1
  have hk : (clearLines (afterLock (openingWith overhangingI)
      (placePiece emptyGrid overhangingI).1 .T true).grid).2 = 0 := by
    rw [clearLines_eq]
    decide
  have hl : (afterLock (openingWith overhangingI)
      (placePiece emptyGrid overhangingI).1 .T true).linesCleared = 0 := rfl
  rw [hk, hl, roundNat_of_lt _ (by norm_num)] at h
  simp only
  rw [h]
  norm_num

theorem after_sunken_lines :
    (update (openingWith sunkenI) 1001 .T).state.linesCleared < 2 ^ 53 := by
  rw [update_lock_throws (openingWith sunkenI) 1001 .T (placePiece emptyGrid sunkenI).1 rfl
    (by norm_num [openingWith, initialState]) (by decide) (by decide)]
  simp only [openingWith, initialState]
  norm_num

theorem settled_of_reached (s : State) (h : Reachable s ∨ Halted s) : Settled s := by
  rcases h with h | h
  · exact settled_of_invariant s (reachable_invariant s h)
  · exact halted_settled s h

/-- C18 (amended): in every state reachable by Ticks and key events, the states left by a Tick
that threw included, in which `linesCleared` is below `2 ^ 53`, the level is the number of
completed tens of cleared lines, `level * 10 ≤ linesCleared < (level + 1) * 10`; while the frame
loop runs no row of the grid is full, the lock of a Tick completes at most 4 rows, and, with
`linesCleared + 4` below `2 ^ 53`, a Tick raises `linesCleared` by at most 4 and the level by at
most 1. -/
theorem reachable_level (s : State) (h : Reachable s ∨ Halted s)
    (hsmall : s.linesCleared < 2 ^ 53) :
    s.level = s.linesCleared / 10 ∧
    s.level * 10 ≤ s.linesCleared ∧ s.linesCleared < (s.level + 1) * 10 ∧
    (Reachable s →
      (∀ row ∈ s.grid, rowFull row = false) ∧
      (clearLines (placePiece s.grid s.activePiece).1).2 ≤ 4 ∧
      ∀ (time : ℚ) (randomType : PieceType), s.linesCleared + 4 < 2 ^ 53 →
        (update s time randomType).state.linesCleared ≤ s.linesCleared + 4 ∧
        (update s time randomType).state.level ≤ s.level + 1) := by
  have hs := settled_of_reached s h
  obtain ⟨hlow, hhigh⟩ := hs.levelOf hsmall
  refine ⟨by omega, hlow, hhigh, fun hreach => ?_⟩
  have hinv := reachable_invariant s hreach
  exact ⟨hinv.noFull, (locked_count s hinv).2,
    fun time randomType => (invariant_tick s hinv time randomType).2⟩

/-- The session after the keys rotate, right (five times), rotate and the Tick at time 1001 from
the initial session with an I piece, and the session left by the Tick that throws after the keys
hard drop and rotate. -/
theorem reachable_level_sample :
    (update (openingWith overhangingI) 1001 .T).state.linesCleared < 2 ^ 53 ∧
    (update (openingWith overhangingI) 1001 .T).state.level =
      (update (openingWith overhangingI) 1001 .T).state.linesCleared / 10 ∧
    (∀ row ∈ (update (openingWith overhangingI) 1001 .T).state.grid, rowFull row = false) ∧
    (update (openingWith sunkenI) 1001 .T).state.linesCleared < 2 ^ 53 ∧
    (update (openingWith sunkenI) 1001 .T).state.level =
      (update (openingWith sunkenI) 1001 .T).state.linesCleared / 10 :=
  ⟨after_overhang_lines,
    (reachable_level _ (Or.inl reachable_after_overhang) after_overhang_lines).1,
    ((reachable_level _ (Or.inl reachable_after_overhang) after_overhang_lines).2.2.2
      reachable_after_overhang).1,
    after_sunken_lines,
    (reachable_level _ (Or.inr halted_sunken) after_sunken_lines).1⟩

/-- C20: in every state reachable by Ticks and key events, the states left by a Tick that threw
included, the anchor rows of the active piece and of the next piece are not negative, so every row
index `y + dy` that `isValidMove` forms for the active piece, or for the active piece shifted by
any column offset and a row offset that is not negative, is not negative either, and `isValidMove`
returns for them without a `TypeError`; it also returns for the next piece against every grid of
`GRID_HEIGHT` rows. -/
theorem reachable_rows (s : State) (h : Reachable s ∨ Halted s) :
    0 ≤ s.activePiece.y ∧ 0 ≤ s.nextPiece.y ∧
    (∀ (offsetY : Int) (dy : Nat), 0 ≤ offsetY → 0 ≤ s.activePiece.y + offsetY + dy) ∧
    (∀ offsetX offsetY : Int, 0 ≤ offsetY →
      ∃ b, isValidMove s.grid
        { s.activePiece with x := s.activePiece.x + offsetX, y := s.activePiece.y + offsetY } =
          some b) ∧
    (∀ g : Grid, g.length = GRID_HEIGHT → ∃ b, isValidMove g s.nextPiece = some b) := by
  have hs := settled_of_reached s h
  have hy := hs.activeRow
  refine ⟨hy, hs.nextRow, fun offsetY dy h0 => ?_, fun offsetX offsetY h0 => ?_, fun g hg => ?_⟩
  · have := Int.natCast_nonneg dy
    omega
  · exact validMove_returns s.grid _ hs.rows (by simp only; omega)
  · exact validMove_returns g _ hg hs.nextRow

/-- The session with the I piece at rest on the floor after the hard drop. -/
theorem reachable_rows_sample :
    0 ≤ (openingWith restingI).activePiece.y ∧
    ∃ b, isValidMove (openingWith restingI).grid
      { (openingWith restingI).activePiece with
        x := (openingWith restingI).activePiece.x + 0,
        y := (openingWith restingI).activePiece.y + 1 } = some b :=
  ⟨(reachable_rows _ (Or.inl reachable_resting)).1,
    (reachable_rows _ (Or.inl reachable_resting)).2.2.2.1 0 1 (by decide)⟩

end Tetris
